import Mathlib

/-!
Shallow embedding of the MuseMarket credit/settlement/earnings ledger:
the `purchaseController` operations (`createPurchase`, `getCreditBalance`,
`settleCredit`, `claimCreatorEarnings`) over the Mongoose data model
(`SimpleCredit`, `Purchase`, `CreatorEarnings`, `Content`, `User`).

The database is modeled as explicit lists of records; Mongo queries
(`findOne`, `find`, `updateMany`, `$inc`) become list operations.
Documents are kept in insertion order and `createdAt` is generated from a
monotone clock, so a `sort({createdAt: 1})` over a query result is the
identity on the filtered list.  Monetary amounts (JS numbers that the
ledger code only adds, subtracts, compares and `Math.min`s) are modeled
as integers.  The external PYUSD transfer performed by
`WalletService.transferPYUSD` is an input of `claimCreatorEarnings`:
`some h` stands for a successful transfer returning transaction hash `h`,
`none` for a failed transfer (the `catch` branch).
-/

abbrev UserId := Nat
abbrev ContentId := Nat

/-- One record of the `Content` collection (only the fields the ledger reads). -/
structure Content where
  id : ContentId
  creator : UserId
  price : Int
  salesCount : Int
deriving DecidableEq

/-- One record of the `SimpleCredit` collection. -/
structure SimpleCredit where
  user : UserId
  creditBalance : Int
  settledTransactions : List String
deriving DecidableEq

/-- One record of the `Purchase` collection (the fields the ledger reads). -/
structure Purchase where
  id : Nat
  buyer : UserId
  content : ContentId
  amount : Int
  transactionHash : String
  status : String
  createdAt : Nat
deriving DecidableEq

/-- The `status` field of a `CreatorEarnings` document: `'pending' | 'claimed'`. -/
inductive EarnStatus where
  | pending
  | claimed
deriving DecidableEq

/-- Boolean test for `status === 'pending'`. -/
def EarnStatus.isPending : EarnStatus → Bool
  | .pending => true
  | .claimed => false

/-- One record of the `CreatorEarnings` collection. -/
structure Earning where
  id : Nat
  creator : UserId
  content : ContentId
  purchase : Nat
  amount : Int
  status : EarnStatus
  claimedAt : Option Nat
  transactionHash : Option String
  createdAt : Nat
deriving DecidableEq

/-- One record of the `User` collection (the fields the ledger reads/writes). -/
structure UserRec where
  id : UserId
  walletAddress : Option String
  totalEarnings : Int
  totalSales : Int
deriving DecidableEq

/-- The whole persistent state: the five collections plus a clock
(source of `Date.now()` / `createdAt` timestamps) and an id counter
(source of fresh `_id`s). -/
structure DB where
  contents : List Content
  users : List UserRec
  credits : List SimpleCredit
  purchases : List Purchase
  earnings : List Earning
  now : Nat
  nextId : Nat
deriving DecidableEq

/-- The `AppError`s thrown by the ledger controllers, by site. -/
inductive Err where
  | ContentNotFound
  | AlreadyPurchased
  | InsufficientCredit
  | CreditNotFound
  | NothingToSettle
  | InvalidReference
  | DuplicateSettlement
  | InvalidAmount
  | NoWalletAddress
  | NoPendingEarnings
  | ExceedsAvailable
  | PayoutFailed
deriving DecidableEq

/-- `true` on `Except.ok`. -/
def resOk {α : Type} : Except Err α → Bool
  | .ok _ => true
  | .error _ => false

instance {ε α : Type} [DecidableEq ε] [DecidableEq α] : DecidableEq (Except ε α) := fun x y =>
  match x, y with
  | .ok a, .ok b =>
    if h : a = b then isTrue (congrArg Except.ok h)
    else isFalse (fun hc => h (Except.ok.inj hc))
  | .ok _, .error _ => isFalse (fun hc => Except.noConfusion hc)
  | .error _, .ok _ => isFalse (fun hc => Except.noConfusion hc)
  | .error a, .error b =>
    if h : a = b then isTrue (congrArg Except.error h)
    else isFalse (fun hc => h (Except.error.inj hc))

/-- Model of the JavaScript regex test `/^credit_/` (and of prefix tests
on strings generally), computed on the character lists. -/
def strStarts (pre s : String) : Bool :=
  pre.data.isPrefixOf s.data

/-- Success payload of `createPurchase` (the fields the spec tracks). -/
structure PurchaseOut where
  purchaseId : Nat
  amount : Int
  remainingCredit : Int
deriving DecidableEq

/-- Success payload of `settleCredit`. -/
structure SettleOut where
  totalAmount : Int
  settledPurchases : Nat
  newCreditBalance : Int
deriving DecidableEq

/-- Success payload of `claimCreatorEarnings`. -/
structure ClaimOut where
  claimedAmount : Int
  claimedEarnings : Nat
  remainingPending : Int
  transactionHash : String
deriving DecidableEq

/-- The state written by the success path of `createPurchase` (run on the
state `db` that already holds the buyer's credit record): deduct the
price (`newBal` is the deducted balance), insert the `Purchase` with its
synthetic `credit_<Date.now()>` hash and status `completed`, and insert
the pending `CreatorEarnings` record.  Saving the new completed purchase
fires the `PurchaseSchema.pre('save')` hook, which increments the
content's `salesCount` and the creator's denormalized
`User.totalEarnings` by the purchase amount already at purchase time;
the controller then increments `salesCount` once more itself, so the
content's `salesCount` rises by 2 in total. -/
def purchaseApply (db : DB) (buyerId : UserId) (contentId : ContentId)
    (content : Content) (newBal : Int) : DB :=
  { db with
      contents := db.contents.map fun c =>
        if c.id == contentId then { c with salesCount := c.salesCount + 2 } else c
      users := db.users.map fun x =>
        if x.id == content.creator then
          { x with totalEarnings := x.totalEarnings + content.price }
        else x
      credits := db.credits.map fun c =>
        if c.user == buyerId then { c with creditBalance := newBal } else c
      purchases := db.purchases ++
        [⟨db.nextId, buyerId, contentId, content.price,
          "credit_" ++ toString db.now, "completed", db.now⟩]
      earnings := db.earnings ++
        [⟨db.nextId + 1, content.creator, contentId, db.nextId, content.price,
          .pending, none, none, db.now⟩]
      now := db.now + 1
      nextId := db.nextId + 2 }

/-- `POST /purchases` (`createPurchase` in the controller): check the
content exists, reject a repeat purchase of the same (buyer, content)
pair, lazily create the buyer's `SimpleCredit` at balance 100, reject if
`creditBalance < content.price`, then apply `purchaseApply` (which also
carries the Purchase schema's pre-save hook effects).  Returns the
resulting state together with the result; on an error the state is
returned as mutated so far (the lazily created credit record is saved
before the price check). -/
def createPurchase (db : DB) (buyerId : UserId) (contentId : ContentId) :
    DB × Except Err PurchaseOut :=
  match db.contents.find? (fun c => c.id == contentId) with
  | none => (db, .error .ContentNotFound)
  | some content =>
    if (db.purchases.find? (fun p => p.buyer == buyerId && p.content == contentId)).isSome then
      (db, .error .AlreadyPurchased)
    else
      let found := db.credits.find? (fun c => c.user == buyerId)
      let userCredit := found.getD ⟨buyerId, 100, []⟩
      let db1 := match found with
        | some _ => db
        | none => { db with credits := db.credits ++ [⟨buyerId, 100, []⟩] }
      if userCredit.creditBalance < content.price then
        (db1, .error .InsufficientCredit)
      else
        let newBal := userCredit.creditBalance - content.price
        (purchaseApply db1 buyerId contentId content newBal,
         .ok ⟨db1.nextId, content.price, newBal⟩)

/-- `GET /purchases/credit-balance` (`getCreditBalance`): lazily create
the buyer's `SimpleCredit` at balance 100 and return the balance. -/
def getCreditBalance (db : DB) (userId : UserId) : DB × Except Err Int :=
  match db.credits.find? (fun c => c.user == userId) with
  | some c => (db, .ok c.creditBalance)
  | none =>
      ({ db with credits := db.credits ++ [⟨userId, 100, []⟩] }, .ok 100)

/-- The request body's `transactionHash` passes the controller's check
`!transactionHash || typeof transactionHash !== 'string'` exactly when
it is a string (`some`) and non-empty (not falsy). -/
def refValid : Option String → Bool
  | none => false
  | some s => !s.isEmpty

/-- The buyer's unsettled on-credit purchases:
`Purchase.find({buyer, transactionHash: {$regex: /^credit_/}})`. -/
def pendingPurchasesOf (db : DB) (userId : UserId) : List Purchase :=
  db.purchases.filter fun p => p.buyer == userId && strStarts "credit_" p.transactionHash

/-- The state written by the success path of `settleCredit`: reset the
buyer's balance to 100 and append the settlement hash `r` to
`settledTransactions`; rewrite every unsettled on-credit purchase's hash
to `settled_<r>`; stamp `r` onto the earnings linked to those purchases
(status untouched — still pending). -/
def settleApply (db : DB) (userId : UserId) (r : String) : DB :=
  { db with
      credits := db.credits.map fun c =>
        if c.user == userId then
          { c with creditBalance := 100
                   settledTransactions := c.settledTransactions ++ [r] }
        else c
      purchases := db.purchases.map fun p =>
        if p.buyer == userId && strStarts "credit_" p.transactionHash then
          { p with transactionHash := "settled_" ++ r }
        else p
      earnings := db.earnings.map fun e =>
        if ((pendingPurchasesOf db userId).map (·.id)).contains e.purchase then
          { e with transactionHash := some r }
        else e }

/-- `POST /purchases/settle-credit` (`settleCredit`): look up the buyer's
credit record, collect unsettled on-credit purchases (none → error),
total them, validate the supplied transaction hash (a non-empty string),
reject a hash already in `settledTransactions`, then reset the balance
to 100, append the hash to `settledTransactions`, rewrite the matched
purchases' hashes to `settled_<hash>`, and stamp the hash onto the
linked `CreatorEarnings` (leaving their status pending).  `ref` is
`none` when the body's `transactionHash` is absent or not a string. -/
def settleCredit (db : DB) (userId : UserId) (ref : Option String) :
    DB × Except Err SettleOut :=
  match db.credits.find? (fun c => c.user == userId) with
  | none => (db, .error .CreditNotFound)
  | some userCredit =>
    let pend := pendingPurchasesOf db userId
    if pend.isEmpty then (db, .error .NothingToSettle)
    else
      let totalAmount := (pend.map (·.amount)).sum
      if !refValid ref then (db, .error .InvalidReference)
      else
        let r := ref.getD ""
        if userCredit.settledTransactions.contains r then
          (db, .error .DuplicateSettlement)
        else
          (settleApply db userId r, .ok ⟨totalAmount, pend.length, 100⟩)

/-- The pending earnings of `creator` inside an earnings collection. -/
def pendList (creator : UserId) (es : List Earning) : List Earning :=
  es.filter fun e => e.creator == creator && e.status.isPending

/-- The claimed earnings of `creator` inside an earnings collection. -/
def claimedList (creator : UserId) (es : List Earning) : List Earning :=
  es.filter fun e => e.creator == creator && !e.status.isPending

/-- The creator's pending earnings, oldest first:
`CreatorEarnings.find({creator, status: 'pending'}).sort({createdAt: 1})`
(list order is insertion order, and `createdAt` is monotone, so the sort
is the identity on the filtered list). -/
def pendingEarningsOf (db : DB) (userId : UserId) : List Earning :=
  pendList userId db.earnings

/-- The creator's wallet passes `!creator || !creator.walletAddress`
exactly when it is present and non-empty. -/
def walletOk : Option String → Bool
  | none => false
  | some s => !s.isEmpty

/-- The claim loop of `claimCreatorEarnings`, walking the earnings
collection in stored (oldest-first) order: while `remainingToClaim > 0`,
each pending earning of `creator` is marked claimed in its entirety
(`status := 'claimed'`, `claimedAt := now`, `transactionHash := hash`)
and `remainingToClaim` drops by `Math.min(remainingToClaim, amount)`.
Returns the rewritten collection, the final remainder, and the number of
earnings claimed. -/
def markClaimed (hash : String) (creator : UserId) (t : Nat) :
    Int → List Earning → List Earning × Int × Nat
  | remaining, [] => ([], remaining, 0)
  | remaining, e :: es =>
    if e.creator == creator && e.status.isPending && decide (0 < remaining) then
      let e1 := { e with status := .claimed, claimedAt := some t, transactionHash := some hash }
      let rest := markClaimed hash creator t (remaining - min remaining e.amount) es
      (e1 :: rest.1, rest.2.1, rest.2.2 + 1)
    else
      let rest := markClaimed hash creator t remaining es
      (e :: rest.1, rest.2.1, rest.2.2)

/-- The state written by the success path of `claimCreatorEarnings`:
run the claim loop over the earnings collection and bump the creator's
denormalized `totalEarnings` by the requested amount and `totalSales` by
the number of earnings claimed. -/
def claimApply (db : DB) (userId : UserId) (amount : Int) (txHash : String) : DB :=
  let walk := markClaimed txHash userId db.now amount db.earnings
  { db with
      earnings := walk.1
      users := db.users.map fun u =>
        if u.id == userId then
          { u with totalEarnings := u.totalEarnings + amount
                   totalSales := u.totalSales + walk.2.2 }
        else u
      now := db.now + 1 }

/-- `POST /purchases/claim-earnings` (`claimCreatorEarnings`): require a
positive amount, a creator record with a non-empty wallet address, a
non-empty list of pending earnings, and `amount <= totalPendingAmount`;
then attempt the external PYUSD transfer (`transfer` argument: `none` is
the failing case and surfaces an error with no mutation); on success
mark pending earnings claimed oldest-first via `markClaimed` and bump
the creator's `totalEarnings` by the requested amount and `totalSales`
by the number of earnings claimed. -/
def claimCreatorEarnings (db : DB) (userId : UserId) (amount : Int)
    (transfer : Option String) : DB × Except Err ClaimOut :=
  if amount ≤ 0 then (db, .error .InvalidAmount)
  else
    match db.users.find? (fun u => u.id == userId) with
    | none => (db, .error .NoWalletAddress)
    | some creator =>
      if !walletOk creator.walletAddress then (db, .error .NoWalletAddress)
      else
        let pend := pendingEarningsOf db userId
        if pend.isEmpty then (db, .error .NoPendingEarnings)
        else
          let totalPendingAmount := (pend.map (·.amount)).sum
          if totalPendingAmount < amount then (db, .error .ExceedsAvailable)
          else
            match transfer with
            | none => (db, .error .PayoutFailed)
            | some txHash =>
              (claimApply db userId amount txHash,
               .ok ⟨amount, (markClaimed txHash userId db.now amount db.earnings).2.2,
                    totalPendingAmount - amount, txHash⟩)

/-- One ledger API call, for reasoning about arbitrary operation
sequences. -/
inductive Op where
  | purchase (buyer : UserId) (contentId : ContentId)
  | balance (u : UserId)
  | settle (u : UserId) (ref : Option String)
  | claim (u : UserId) (amount : Int) (transfer : Option String)

/-- The state reached after one API call (errors leave the state as the
controller left it). -/
def stepOp (db : DB) : Op → DB
  | .purchase b c => (createPurchase db b c).1
  | .balance u => (getCreditBalance db u).1
  | .settle u r => (settleCredit db u r).1
  | .claim u a t => (claimCreatorEarnings db u a t).1

/-- The state reached after a sequence of API calls. -/
def runOps (db : DB) (ops : List Op) : DB :=
  ops.foldl stepOp db

/-- The buyer's `creditBalance`, when a `SimpleCredit` record exists. -/
def balanceOf (db : DB) (userId : UserId) : Option Int :=
  (db.credits.find? (fun c => c.user == userId)).map (·.creditBalance)

/-- The settlement hashes already recorded for the buyer. -/
def settledOf (db : DB) (userId : UserId) : List String :=
  ((db.credits.find? (fun c => c.user == userId)).map (·.settledTransactions)).getD []

/-- The creator's stored wallet address, if any. -/
def walletOf (db : DB) (userId : UserId) : Option String :=
  (db.users.find? (fun u => u.id == userId)).bind (·.walletAddress)

/-- The creator's denormalized `totalEarnings` aggregate on the `User`
record (0 when the record is absent). -/
def totalEarningsOf (db : DB) (userId : UserId) : Int :=
  ((db.users.find? (fun u => u.id == userId)).map (·.totalEarnings)).getD 0

/-- Total of a list of earnings' amounts. -/
def amtSum (es : List Earning) : Int :=
  (es.map (·.amount)).sum

/-- Sum of the creator's pending earning amounts. -/
def pendingSum (db : DB) (userId : UserId) : Int :=
  amtSum (pendingEarningsOf db userId)

/-- The creator's earnings with `status = 'claimed'`. -/
def claimedEarningsOf (db : DB) (userId : UserId) : List Earning :=
  claimedList userId db.earnings

/-- Sum of the creator's claimed earning amounts. -/
def claimedSum (db : DB) (userId : UserId) : Int :=
  amtSum (claimedEarningsOf db userId)

/-- How many earnings the claim loop consumes from a pending list when
`remainingToClaim` starts at `r`: an earning is consumed while the
remainder is still positive, and consuming one drops the remainder by
`Math.min(remainingToClaim, amount)`. -/
def ccount (r : Int) : List Earning → Nat
  | [] => 0
  | e :: es => if 0 < r then ccount (r - min r e.amount) es + 1 else 0

/-- The final `remainingToClaim` left by the claim loop on a pending
list. -/
def frem (r : Int) : List Earning → Int
  | [] => r
  | e :: es => if 0 < r then frem (r - min r e.amount) es else r

/-- An earnings list is in `createdAt`-ascending (oldest-first) order. -/
def createdSorted : List Earning → Bool
  | [] => true
  | [_] => true
  | a :: b :: es => decide (a.createdAt ≤ b.createdAt) && createdSorted (b :: es)

/-- The spec's "expected transaction-hash shape" for a settlement
reference (an Ethereum-style transaction hash: `0x` followed by 64 hex
digits).  The spec requires `settleCredit` to reject references that do
not have this shape; this definition exists only to state that
requirement — the controller itself performs no such check. -/
def isTxHashShape (s : String) : Bool :=
  strStarts "0x" s && s.length == 66 &&
    (s.data.drop 2).all fun c => c.isDigit || ("abcdefABCDEF".data.contains c)

/-- Every content price is in the range the `Content` schema enforces
(`min: 0`). -/
def PriceInv (db : DB) : Prop :=
  ∀ c ∈ db.contents, 0 ≤ c.price

/-- Every credit balance lies in `[0, 100]`. -/
def CreditInv (db : DB) : Prop :=
  ∀ c ∈ db.credits, 0 ≤ c.creditBalance ∧ c.creditBalance ≤ 100

/-- Every earning amount is nonnegative (the `CreatorEarnings` schema's
`min: 0`). -/
def EarnNonneg (db : DB) : Prop :=
  ∀ e ∈ db.earnings, 0 ≤ e.amount

instance : DecidablePred PriceInv := fun db =>
  inferInstanceAs (Decidable (∀ c ∈ db.contents, 0 ≤ c.price))

instance : DecidablePred CreditInv := fun db =>
  inferInstanceAs (Decidable (∀ c ∈ db.credits, 0 ≤ c.creditBalance ∧ c.creditBalance ≤ 100))

instance : DecidablePred EarnNonneg := fun db =>
  inferInstanceAs (Decidable (∀ e ∈ db.earnings, 0 ≤ e.amount))

/-- Every content's creator has a `User` record (contents are created by
authenticated users, so the pre-save hook's
`User.findByIdAndUpdate(content.creator, ...)` finds its target). -/
def CreatorsExist (db : DB) : Prop :=
  ∀ c ∈ db.contents, (db.users.find? (fun x => x.id == c.creator)).isSome = true

instance : DecidablePred CreatorsExist := fun db =>
  inferInstanceAs
    (Decidable (∀ c ∈ db.contents, (db.users.find? (fun x => x.id == c.creator)).isSome = true))

/-- A concrete state for exercising the claim workflow: creator 1 has a
wallet and two pending earnings of 30 (older) and 20 (newer). -/
def dbC4 : DB :=
  ⟨[], [⟨1, some "0xW", 0, 0⟩], [], [],
    [⟨0, 1, 0, 0, 30, .pending, none, none, 0⟩,
     ⟨1, 1, 0, 1, 20, .pending, none, none, 1⟩], 2, 2⟩

/-! ### Generic list lemmas -/

theorem find?_map_pred {α : Type} (p : α → Bool) (g : α → α)
    (hg : ∀ x, p (g x) = p x) (l : List α) :
    (l.map g).find? p = (l.find? p).map g := by
  induction l with
  | nil => rfl
  | cons a l ih =>
    cases hpa : p a
    · rw [List.map_cons, List.find?_cons_of_neg _ (by simp [hg a, hpa]),
        List.find?_cons_of_neg _ (by simp [hpa]), ih]
    · rw [List.map_cons, List.find?_cons_of_pos _ (by rw [hg a]; exact hpa),
        List.find?_cons_of_pos _ hpa]
      rfl

/-! ### The claim loop -/

@[simp] theorem isPending_pending : EarnStatus.pending.isPending = true := rfl

@[simp] theorem isPending_claimed : EarnStatus.claimed.isPending = false := rfl

theorem markClaimed_nonpos (h : String) (c : UserId) (t : Nat) (r : Int)
    (hr : ¬ 0 < r) : ∀ es, markClaimed h c t r es = (es, r, 0)
  | [] => rfl
  | e :: es => by
    simp [markClaimed, hr, markClaimed_nonpos h c t r hr es]

theorem markClaimed_pendList (h : String) (c : UserId) (t : Nat) :
    ∀ (r : Int) (es : List Earning),
      pendList c (markClaimed h c t r es).1 =
        (pendList c es).drop (ccount r (pendList c es))
  | r, [] => by simp [markClaimed, pendList]
  | r, e :: es => by
    by_cases hq1 : e.creator = c
    · by_cases hq2 : e.status.isPending = true
      · by_cases hr : 0 < r
        · have ih := markClaimed_pendList h c t (r - min r e.amount) es
          simp only [pendList] at ih
          simp [markClaimed, pendList, List.filter_cons, ccount, hq1, hq2, hr, ih]
        · rw [markClaimed_nonpos h c t r hr]
          simp [pendList, List.filter_cons, ccount, hq1, hq2, hr]
      · have ih := markClaimed_pendList h c t r es
        simp only [pendList] at ih
        simp [markClaimed, pendList, List.filter_cons, hq1, hq2, ih]
    · have ih := markClaimed_pendList h c t r es
      simp only [pendList] at ih
      simp [markClaimed, pendList, List.filter_cons, hq1, ih]

@[simp] theorem amtSum_nil : amtSum [] = 0 := rfl

@[simp] theorem amtSum_cons (e : Earning) (l : List Earning) :
    amtSum (e :: l) = e.amount + amtSum l := by
  simp [amtSum]

theorem amtSum_append (l1 l2 : List Earning) :
    amtSum (l1 ++ l2) = amtSum l1 + amtSum l2 := by
  simp [amtSum]

theorem markClaimed_count (h : String) (c : UserId) (t : Nat) :
    ∀ (r : Int) (es : List Earning),
      (markClaimed h c t r es).2.2 = ccount r (pendList c es)
  | r, [] => by simp [markClaimed, pendList, ccount]
  | r, e :: es => by
    by_cases hq1 : e.creator = c
    · by_cases hq2 : e.status.isPending = true
      · by_cases hr : 0 < r
        · have ih := markClaimed_count h c t (r - min r e.amount) es
          simp only [pendList] at ih
          simp [markClaimed, pendList, List.filter_cons, ccount, hq1, hq2, hr, ih]
        · rw [markClaimed_nonpos h c t r hr]
          simp [pendList, List.filter_cons, ccount, hq1, hq2, hr]
      · have ih := markClaimed_count h c t r es
        simp only [pendList] at ih
        simp [markClaimed, pendList, List.filter_cons, hq1, hq2, ih]
    · have ih := markClaimed_count h c t r es
      simp only [pendList] at ih
      simp [markClaimed, pendList, List.filter_cons, hq1, ih]

theorem markClaimed_claimedSum (h : String) (c : UserId) (t : Nat) :
    ∀ (r : Int) (es : List Earning),
      amtSum (claimedList c (markClaimed h c t r es).1) =
        amtSum (claimedList c es) +
          amtSum ((pendList c es).take (ccount r (pendList c es)))
  | r, [] => by simp [markClaimed, pendList, claimedList, ccount]
  | r, e :: es => by
    by_cases hq1 : e.creator = c
    · by_cases hq2 : e.status.isPending = true
      · by_cases hr : 0 < r
        · have ih := markClaimed_claimedSum h c t (r - min r e.amount) es
          simp only [pendList, claimedList] at ih
          simp [markClaimed, pendList, claimedList, List.filter_cons, ccount,
            hq1, hq2, hr, ih]
          omega
        · rw [markClaimed_nonpos h c t r hr]
          simp [pendList, claimedList, List.filter_cons, ccount, hq1, hq2, hr]
      · have ih := markClaimed_claimedSum h c t r es
        simp only [pendList, claimedList] at ih
        simp [markClaimed, pendList, claimedList, List.filter_cons, hq1, hq2, ih]
        omega
    · have ih := markClaimed_claimedSum h c t r es
      simp only [pendList, claimedList] at ih
      simp [markClaimed, pendList, claimedList, List.filter_cons, hq1, ih]

theorem markClaimed_other (h : String) (c u : UserId) (t : Nat) (hu : u ≠ c) :
    ∀ (r : Int) (es : List Earning),
      pendList u (markClaimed h c t r es).1 = pendList u es ∧
        claimedList u (markClaimed h c t r es).1 = claimedList u es
  | r, [] => by simp [markClaimed]
  | r, e :: es => by
    by_cases hcond : (e.creator == c && e.status.isPending && decide (0 < r)) = true
    · have hc : e.creator = c := by
        simp only [Bool.and_eq_true, beq_iff_eq] at hcond
        exact hcond.1.1
      have hne : ¬ e.creator = u := by rw [hc]; exact fun hh => hu hh.symm
      have ih := markClaimed_other h c u t hu (r - min r e.amount) es
      simp only [pendList, claimedList] at ih
      simp [markClaimed, hcond, pendList, claimedList, List.filter_cons, hne,
        ih.1, ih.2]
    · simp only [Bool.not_eq_true] at hcond
      have ih := markClaimed_other h c u t hu r es
      simp only [pendList, claimedList] at ih
      simp [markClaimed, hcond, pendList, claimedList, List.filter_cons,
        ih.1, ih.2]

theorem markClaimed_amounts (h : String) (c : UserId) (t : Nat) :
    ∀ (r : Int) (es : List Earning),
      (markClaimed h c t r es).1.map (·.amount) = es.map (·.amount)
  | _, [] => rfl
  | r, e :: es => by
    by_cases hcond : (e.creator == c && e.status.isPending && decide (0 < r)) = true
    · simp [markClaimed, hcond, markClaimed_amounts h c t (r - min r e.amount) es]
    · simp only [Bool.not_eq_true] at hcond
      simp [markClaimed, hcond, markClaimed_amounts h c t r es]

theorem markClaimed_ids (h : String) (c : UserId) (t : Nat) :
    ∀ (r : Int) (es : List Earning),
      (markClaimed h c t r es).1.map (·.id) = es.map (·.id)
  | _, [] => rfl
  | r, e :: es => by
    by_cases hcond : (e.creator == c && e.status.isPending && decide (0 < r)) = true
    · simp [markClaimed, hcond, markClaimed_ids h c t (r - min r e.amount) es]
    · simp only [Bool.not_eq_true] at hcond
      simp [markClaimed, hcond, markClaimed_ids h c t r es]

/-! ### Arithmetic of the consumption counters -/

theorem ccount_nonpos (r : Int) (hr : ¬ 0 < r) : ∀ l : List Earning, ccount r l = 0
  | [] => rfl
  | _ :: _ => by simp [ccount, hr]

theorem ccount_le_length (r : Int) : ∀ l : List Earning, ccount r l ≤ l.length
  | [] => le_refl 0
  | e :: es => by
    by_cases hr : 0 < r
    · simpa [ccount, hr] using ccount_le_length (r - min r e.amount) es
    · simp [ccount, hr]

theorem frem_nonneg (r : Int) (hr : 0 ≤ r) : ∀ l : List Earning, 0 ≤ frem r l
  | [] => hr
  | e :: es => by
    by_cases h0 : 0 < r
    · have h1 : 0 ≤ r - min r e.amount := sub_nonneg.mpr (min_le_left r e.amount)
      simpa [frem, h0] using frem_nonneg (r - min r e.amount) h1 es
    · simpa [frem, h0] using hr

theorem frem_take_sum (r : Int) : ∀ l : List Earning,
    r - frem r l ≤ amtSum (l.take (ccount r l))
  | [] => by simp [frem, ccount]
  | e :: es => by
    by_cases h0 : 0 < r
    · have ih := frem_take_sum (r - min r e.amount) es
      have hmin : min r e.amount ≤ e.amount := min_le_right r e.amount
      simp only [frem, ccount, h0, if_true, List.take_succ_cons, amtSum_cons]
      linarith
    · simp [frem, ccount, h0]

theorem frem_pos_all (r : Int) : ∀ l : List Earning,
    0 < frem r l → ccount r l = l.length
  | [] => fun _ => rfl
  | e :: es => by
    intro hpos
    by_cases h0 : 0 < r
    · simp only [frem, h0, if_true] at hpos
      simp [ccount, h0, frem_pos_all (r - min r e.amount) es hpos]
    · simp [frem, h0] at hpos

theorem consumed_ge (r : Int) (l : List Earning) (h0 : 0 < r)
    (hle : r ≤ amtSum l) : r ≤ amtSum (l.take (ccount r l)) := by
  by_cases hf : 0 < frem r l
  · rw [frem_pos_all r l hf, List.take_length]
    exact hle
  · have := frem_take_sum r l
    have hfle : frem r l ≤ 0 := not_lt.mp hf
    linarith

theorem take_sum_lt (r : Int) (h0 : 0 < r) : ∀ (l : List Earning) (k : Nat),
    k < ccount r l → amtSum (l.take k) < r
  | [], k => by simp [ccount]
  | e :: es, k => by
    intro hk
    simp only [ccount, h0, if_true] at hk
    match k with
    | 0 => simpa [amtSum] using h0
    | k + 1 =>
      have hk' : k < ccount (r - min r e.amount) es := by omega
      have hpos : 0 < r - min r e.amount := by
        by_contra hnp
        rw [ccount_nonpos _ hnp] at hk'
        omega
      have hlt : min r e.amount < r := by linarith
      have hmin : min r e.amount = e.amount := by
        rcases min_cases r e.amount with ⟨hm, _⟩ | ⟨hm, _⟩
        · rw [hm] at hlt; exact absurd hlt (lt_irrefl r)
        · exact hm
      have ih := take_sum_lt (r - min r e.amount) hpos es k hk'
      simp only [List.take_succ_cons, amtSum_cons]
      rw [hmin] at ih
      linarith

theorem take_sum_mono (l : List Earning) (hnn : ∀ e ∈ l, 0 ≤ e.amount)
    (k m : Nat) (hkm : k ≤ m) : amtSum (l.take k) ≤ amtSum (l.take m) := by
  have hsplit : l.take m = l.take k ++ ((l.drop k).take (m - k)) := by
    rw [← List.take_add]
    congr 1
    omega
  rw [hsplit, amtSum_append]
  have hnn2 : 0 ≤ amtSum ((l.drop k).take (m - k)) := by
    apply List.sum_nonneg
    intro x hx
    simp only [List.mem_map] at hx
    obtain ⟨e, he, rfl⟩ := hx
    exact hnn e (((l.drop k).take_sublist (m - k)).subset.trans
      (l.drop_sublist k).subset he)
  linarith

/-! ### Invariant preservation -/

theorem forall_mem_map_ite {α : Type} (l : List α) (p : α → Bool) (g : α → α)
    (Q : α → Prop) (hl : ∀ x ∈ l, Q x) (hg : ∀ x ∈ l, Q x → Q (g x)) :
    ∀ y ∈ l.map (fun x => if p x then g x else x), Q y := by
  intro y hy
  simp only [List.mem_map] at hy
  obtain ⟨x, hx, rfl⟩ := hy
  by_cases hp : p x = true
  · simpa [hp] using hg x hx (hl x hx)
  · simpa [hp] using hl x hx

theorem forall_mem_append_one {α : Type} (l : List α) (a : α) (Q : α → Prop)
    (hl : ∀ x ∈ l, Q x) (ha : Q a) : ∀ y ∈ l ++ [a], Q y := by
  intro y hy
  rcases List.mem_append.mp hy with hy | hy
  · exact hl y hy
  · rw [List.mem_singleton.mp hy]; exact ha

theorem earnNonneg_markClaimed (h : String) (c : UserId) (t : Nat) (r : Int)
    (es : List Earning) (hE : ∀ e ∈ es, 0 ≤ e.amount) :
    ∀ e ∈ (markClaimed h c t r es).1, 0 ≤ e.amount := by
  intro x hx
  have hmem : x.amount ∈ (markClaimed h c t r es).1.map (·.amount) :=
    List.mem_map_of_mem _ hx
  rw [markClaimed_amounts] at hmem
  simp only [List.mem_map] at hmem
  obtain ⟨e, he, heq⟩ := hmem
  rw [← heq]
  exact hE e he

theorem inv_createPurchase (db : DB) (b : UserId) (cid : ContentId)
    (hP : PriceInv db) (hC : CreditInv db) (hE : EarnNonneg db) :
    PriceInv (createPurchase db b cid).1 ∧ CreditInv (createPurchase db b cid).1 ∧
      EarnNonneg (createPurchase db b cid).1 := by
  unfold createPurchase purchaseApply
  cases hfind : db.contents.find? (fun c => c.id == cid) with
  | none => exact ⟨hP, hC, hE⟩
  | some content =>
    have hprice : 0 ≤ content.price :=
      hP content (List.mem_of_find?_eq_some hfind)
    by_cases hdup : (db.purchases.find? (fun p => p.buyer == b && p.content == cid)).isSome = true
    · simp only [hdup, if_true]
      exact ⟨hP, hC, hE⟩
    · simp only [hdup, if_false, Bool.false_eq_true]
      cases hcr : db.credits.find? (fun c => c.user == b) with
      | some c0 =>
        have hc0 := hC c0 (List.mem_of_find?_eq_some hcr)
        by_cases hbal : c0.creditBalance < content.price
        · simp only [hbal, if_true, Option.getD_some]
          exact ⟨hP, hC, hE⟩
        · simp only [hbal, if_false, Option.getD_some]
          refine ⟨?_, ?_, ?_⟩
          · exact forall_mem_map_ite _ _ _ _ hP (fun x _ hx => hx)
          · refine forall_mem_map_ite _ _ _ _ hC (fun x _ _ => ?_)
            constructor
            · simpa using sub_nonneg.mpr (not_lt.mp hbal)
            · have : c0.creditBalance - content.price ≤ c0.creditBalance := by
                linarith
              simpa using le_trans this hc0.2
          · exact forall_mem_append_one _ _ _ hE (by simpa using hprice)
      | none =>
        by_cases hbal : (100 : Int) < content.price
        · simp only [hbal, if_true, Option.getD_none]
          refine ⟨hP, ?_, hE⟩
          exact forall_mem_append_one _ _ _ hC (by constructor <;> simp)
        · simp only [hbal, if_false, Option.getD_none]
          refine ⟨?_, ?_, ?_⟩
          · exact forall_mem_map_ite _ _ _ _ hP (fun x _ hx => hx)
          · refine forall_mem_map_ite _ _ _ _
              (forall_mem_append_one _ _ _ hC (by constructor <;> simp))
              (fun x _ _ => ?_)
            constructor
            · simpa using sub_nonneg.mpr (not_lt.mp hbal)
            · have h1 : (100 : Int) - content.price ≤ 100 := by linarith
              simpa using h1
          · exact forall_mem_append_one _ _ _ hE (by simpa using hprice)

theorem inv_getCreditBalance (db : DB) (u : UserId)
    (hP : PriceInv db) (hC : CreditInv db) (hE : EarnNonneg db) :
    PriceInv (getCreditBalance db u).1 ∧ CreditInv (getCreditBalance db u).1 ∧
      EarnNonneg (getCreditBalance db u).1 := by
  unfold getCreditBalance
  cases hcr : db.credits.find? (fun c => c.user == u) with
  | some c0 => exact ⟨hP, hC, hE⟩
  | none =>
    refine ⟨hP, ?_, hE⟩
    exact forall_mem_append_one _ _ _ hC (by constructor <;> simp)

theorem inv_settleCredit (db : DB) (u : UserId) (ref : Option String)
    (hP : PriceInv db) (hC : CreditInv db) (hE : EarnNonneg db) :
    PriceInv (settleCredit db u ref).1 ∧ CreditInv (settleCredit db u ref).1 ∧
      EarnNonneg (settleCredit db u ref).1 := by
  unfold settleCredit settleApply
  cases hcr : db.credits.find? (fun c => c.user == u) with
  | none => exact ⟨hP, hC, hE⟩
  | some c0 =>
    by_cases hpend : (pendingPurchasesOf db u).isEmpty = true
    · simp only [hpend, if_true]
      exact ⟨hP, hC, hE⟩
    · simp only [hpend, if_false, Bool.false_eq_true]
      by_cases hval : refValid ref = true
      · simp only [hval, Bool.not_true, if_false, Bool.false_eq_true]
        by_cases hused : (c0.settledTransactions.contains (ref.getD "")) = true
        · simp only [hused, if_true]
          exact ⟨hP, hC, hE⟩
        · simp only [hused, if_false, Bool.false_eq_true]
          refine ⟨hP, ?_, ?_⟩
          · refine forall_mem_map_ite _ _ _ _ hC (fun x _ _ => ?_)
            constructor <;> simp
          · refine forall_mem_map_ite _ _ _ _ hE (fun x _ hx => ?_)
            simpa using hx
      · have hval' : refValid ref = false := by simpa using hval
        simp only [hval', Bool.not_false, if_true]
        exact ⟨hP, hC, hE⟩

theorem inv_claimCreatorEarnings (db : DB) (u : UserId) (a : Int) (tr : Option String)
    (hP : PriceInv db) (hC : CreditInv db) (hE : EarnNonneg db) :
    PriceInv (claimCreatorEarnings db u a tr).1 ∧
      CreditInv (claimCreatorEarnings db u a tr).1 ∧
      EarnNonneg (claimCreatorEarnings db u a tr).1 := by
  unfold claimCreatorEarnings
  by_cases ha : a ≤ 0
  · simp only [ha, if_true]
    exact ⟨hP, hC, hE⟩
  · simp only [ha, if_false]
    cases hu : db.users.find? (fun x => x.id == u) with
    | none => exact ⟨hP, hC, hE⟩
    | some creator =>
      by_cases hw : walletOk creator.walletAddress = true
      · simp only [hw, Bool.not_true, if_false, Bool.false_eq_true]
        by_cases hpe : (pendingEarningsOf db u).isEmpty = true
        · simp only [hpe, if_true]
          exact ⟨hP, hC, hE⟩
        · simp only [hpe, if_false, Bool.false_eq_true]
          by_cases hex : ((pendingEarningsOf db u).map (·.amount)).sum < a
          · simp only [hex, if_true]
            exact ⟨hP, hC, hE⟩
          · simp only [hex, if_false]
            cases tr with
            | none => exact ⟨hP, hC, hE⟩
            | some txh =>
              exact ⟨hP, hC, earnNonneg_markClaimed _ _ _ _ _ hE⟩
      · have hw' : walletOk creator.walletAddress = false := by simpa using hw
        simp only [hw', Bool.not_false, if_true]
        exact ⟨hP, hC, hE⟩

theorem inv_step (db : DB) (op : Op)
    (h : PriceInv db ∧ CreditInv db ∧ EarnNonneg db) :
    PriceInv (stepOp db op) ∧ CreditInv (stepOp db op) ∧ EarnNonneg (stepOp db op) := by
  obtain ⟨hP, hC, hE⟩ := h
  cases op with
  | purchase b c => exact inv_createPurchase db b c hP hC hE
  | balance u => exact inv_getCreditBalance db u hP hC hE
  | settle u r => exact inv_settleCredit db u r hP hC hE
  | claim u a t => exact inv_claimCreatorEarnings db u a t hP hC hE

theorem inv_runOps (db : DB) (ops : List Op)
    (h : PriceInv db ∧ CreditInv db ∧ EarnNonneg db) :
    PriceInv (runOps db ops) ∧ CreditInv (runOps db ops) ∧
      EarnNonneg (runOps db ops) := by
  induction ops generalizing db with
  | nil => exact h
  | cons op ops ih => exact ih (stepOp db op) (inv_step db op h)

/-! ### Claimed totals vs the denormalized `totalEarnings` aggregate -/

theorem amtSum_claimedList_map (u : UserId) (g : Earning → Earning)
    (hg : ∀ e, (g e).creator = e.creator ∧ (g e).status = e.status ∧
      (g e).amount = e.amount) :
    ∀ es : List Earning, amtSum (claimedList u (es.map g)) = amtSum (claimedList u es)
  | [] => rfl
  | e :: es => by
    obtain ⟨h1, h2, h3⟩ := hg e
    have ih := amtSum_claimedList_map u g hg es
    simp only [claimedList, List.map_cons, List.filter_cons, h1, h2] at ih ⊢
    by_cases hc : (e.creator == u && !e.status.isPending) = true
    · simp [hc, h3, ih]
    · simp only [Bool.not_eq_true] at hc
      simp [hc, ih]

theorem claimedList_append_pending (u : UserId) (es : List Earning) (e : Earning)
    (he : e.status = EarnStatus.pending) :
    claimedList u (es ++ [e]) = claimedList u es := by
  simp [claimedList, List.filter_append, he]

theorem pendList_append_self (w : UserId) (es : List Earning) (e : Earning)
    (hc : e.creator = w) (hp : e.status = EarnStatus.pending) :
    pendList w (es ++ [e]) = pendList w es ++ [e] := by
  simp [pendList, List.filter_append, hc, hp]

theorem pendList_append_other (w : UserId) (es : List Earning) (e : Earning)
    (hc : ¬ e.creator = w) :
    pendList w (es ++ [e]) = pendList w es := by
  simp [pendList, List.filter_append, hc]

theorem amtSum_pendList_map (u : UserId) (g : Earning → Earning)
    (hg : ∀ e, (g e).creator = e.creator ∧ (g e).status = e.status ∧
      (g e).amount = e.amount) :
    ∀ es : List Earning, amtSum (pendList u (es.map g)) = amtSum (pendList u es)
  | [] => rfl
  | e :: es => by
    obtain ⟨h1, h2, h3⟩ := hg e
    have ih := amtSum_pendList_map u g hg es
    simp only [pendList, List.map_cons, List.filter_cons, h1, h2] at ih ⊢
    by_cases hc : (e.creator == u && e.status.isPending) = true
    · simp [hc, h3, ih]
    · simp only [Bool.not_eq_true] at hc
      simp [hc, ih]

theorem purchaseApply_claimedSum (db : DB) (b : UserId) (cid : ContentId)
    (content : Content) (nb : Int) (w : UserId) :
    claimedSum (purchaseApply db b cid content nb) w = claimedSum db w := by
  unfold claimedSum claimedEarningsOf purchaseApply
  exact congrArg amtSum (claimedList_append_pending w db.earnings _ rfl)

theorem purchaseApply_totalEarnings_self (db : DB) (b : UserId) (cid : ContentId)
    (content : Content) (nb : Int) (rec : UserRec)
    (hfu : db.users.find? (fun x => x.id == content.creator) = some rec) :
    totalEarningsOf (purchaseApply db b cid content nb) content.creator =
      rec.totalEarnings + content.price := by
  unfold totalEarningsOf purchaseApply
  rw [find?_map_pred _ _
    (fun x => by by_cases hx : (x.id == content.creator) = true <;> simp [hx]), hfu]
  have hid := List.find?_some hfu
  have hid2 : rec.id = content.creator := by simpa using hid
  simp [hid2]

theorem purchaseApply_totalEarnings_other (db : DB) (b : UserId) (cid : ContentId)
    (content : Content) (nb : Int) (w : UserId) (hw : w ≠ content.creator) :
    totalEarningsOf (purchaseApply db b cid content nb) w = totalEarningsOf db w := by
  unfold totalEarningsOf purchaseApply
  rw [find?_map_pred _ _
    (fun x => by by_cases hx : (x.id == content.creator) = true <;> simp [hx])]
  cases hf : db.users.find? (fun x => x.id == w) with
  | none => rfl
  | some x =>
    have hxw := List.find?_some hf
    have hxid : x.id = w := by simpa using hxw
    simp [hxid, hw]

theorem purchaseApply_pendingSum_self (db : DB) (b : UserId) (cid : ContentId)
    (content : Content) (nb : Int) :
    pendingSum (purchaseApply db b cid content nb) content.creator =
      pendingSum db content.creator + content.price := by
  have he : (purchaseApply db b cid content nb).earnings = db.earnings ++
      [⟨db.nextId + 1, content.creator, cid, db.nextId, content.price,
        .pending, none, none, db.now⟩] := rfl
  unfold pendingSum pendingEarningsOf
  rw [he, pendList_append_self content.creator db.earnings _ rfl rfl, amtSum_append]
  simp [amtSum]

theorem purchaseApply_pendingSum_other (db : DB) (b : UserId) (cid : ContentId)
    (content : Content) (nb : Int) (w : UserId) (hw : w ≠ content.creator) :
    pendingSum (purchaseApply db b cid content nb) w = pendingSum db w := by
  have he : (purchaseApply db b cid content nb).earnings = db.earnings ++
      [⟨db.nextId + 1, content.creator, cid, db.nextId, content.price,
        .pending, none, none, db.now⟩] := rfl
  unfold pendingSum pendingEarningsOf
  rw [he, pendList_append_other w db.earnings _ (fun hh => hw hh.symm)]

theorem settleApply_totalEarnings (db : DB) (u : UserId) (r : String) (w : UserId) :
    totalEarningsOf (settleApply db u r) w = totalEarningsOf db w := rfl

theorem settleApply_claimedSum (db : DB) (u : UserId) (r : String) (w : UserId) :
    claimedSum (settleApply db u r) w = claimedSum db w := by
  unfold claimedSum claimedEarningsOf settleApply
  exact amtSum_claimedList_map w _
    (fun e => by refine ⟨?_, ?_, ?_⟩ <;> (split <;> rfl)) db.earnings

theorem settleApply_pendingSum (db : DB) (u : UserId) (r : String) (w : UserId) :
    pendingSum (settleApply db u r) w = pendingSum db w := by
  unfold pendingSum pendingEarningsOf settleApply
  exact amtSum_pendList_map w _
    (fun e => by refine ⟨?_, ?_, ?_⟩ <;> (split <;> rfl)) db.earnings

theorem claimApply_claimedSum_self (db : DB) (u : UserId) (a : Int) (h : String) :
    claimedSum (claimApply db u a h) u =
      claimedSum db u +
        amtSum ((pendList u db.earnings).take (ccount a (pendList u db.earnings))) := by
  unfold claimedSum claimedEarningsOf claimApply
  exact markClaimed_claimedSum h u db.now a db.earnings

theorem claimApply_claimedSum_other (db : DB) (u : UserId) (a : Int) (h : String)
    (w : UserId) (hw : w ≠ u) :
    claimedSum (claimApply db u a h) w = claimedSum db w := by
  unfold claimedSum claimedEarningsOf claimApply
  exact congrArg amtSum (markClaimed_other h u w db.now hw a db.earnings).2

theorem claimApply_pendList_self (db : DB) (u : UserId) (a : Int) (h : String) :
    pendList u (claimApply db u a h).earnings =
      (pendList u db.earnings).drop (ccount a (pendList u db.earnings)) :=
  markClaimed_pendList h u db.now a db.earnings

theorem claimApply_pendingSum_other (db : DB) (u : UserId) (a : Int) (h : String)
    (w : UserId) (hw : w ≠ u) :
    pendingSum (claimApply db u a h) w = pendingSum db w := by
  unfold pendingSum pendingEarningsOf claimApply
  exact congrArg amtSum (markClaimed_other h u w db.now hw a db.earnings).1

theorem claimApply_totalEarnings_self (db : DB) (u : UserId) (a : Int) (h : String)
    (creator : UserRec) (hf : db.users.find? (fun x => x.id == u) = some creator) :
    totalEarningsOf (claimApply db u a h) u = creator.totalEarnings + a := by
  unfold totalEarningsOf claimApply
  rw [find?_map_pred _ _ (fun x => by by_cases hx : (x.id == u) = true <;> simp [hx]), hf]
  have hid := List.find?_some hf
  have hid2 : creator.id = u := by simpa using hid
  simp [hid2]

theorem claimApply_totalEarnings_other (db : DB) (u : UserId) (a : Int) (h : String)
    (w : UserId) (hw : w ≠ u) :
    totalEarningsOf (claimApply db u a h) w = totalEarningsOf db w := by
  unfold totalEarningsOf claimApply
  rw [find?_map_pred _ _ (fun x => by by_cases hx : (x.id == u) = true <;> simp [hx])]
  cases hf : db.users.find? (fun x => x.id == w) with
  | none => rfl
  | some x =>
    have hxw := List.find?_some hf
    have hxid : x.id = w := by simpa using hxw
    simp [hxid, hw]

/-! ### Every content creator keeps a `User` record -/

theorem users_find_isSome_map (g : UserRec → UserRec) (hg : ∀ x, (g x).id = x.id)
    (l : List UserRec) (w : UserId) :
    ((l.map g).find? (fun x => x.id == w)).isSome =
      (l.find? (fun x => x.id == w)).isSome := by
  rw [find?_map_pred _ _ (fun x => by rw [hg x])]
  cases l.find? (fun x => x.id == w) <;> rfl

theorem ce_purchaseApply (db : DB) (b : UserId) (cid : ContentId)
    (content : Content) (nb : Int) (hCE : CreatorsExist db) :
    CreatorsExist (purchaseApply db b cid content nb) := by
  intro c hc
  have hcontents : (purchaseApply db b cid content nb).contents =
      db.contents.map
        (fun x => if x.id == cid then { x with salesCount := x.salesCount + 2 } else x) := rfl
  rw [hcontents] at hc
  simp only [List.mem_map] at hc
  obtain ⟨c0, hc0, rfl⟩ := hc
  have hcreator :
      (if (c0.id == cid) = true then { c0 with salesCount := c0.salesCount + 2 } else c0).creator =
        c0.creator := by
    split <;> rfl
  have husers : (purchaseApply db b cid content nb).users =
      db.users.map (fun x => if x.id == content.creator then
        { x with totalEarnings := x.totalEarnings + content.price } else x) := rfl
  rw [hcreator, husers, users_find_isSome_map _
    (fun x => by by_cases hx : (x.id == content.creator) = true <;> simp [hx])]
  exact hCE c0 hc0

theorem ce_claimApply (db : DB) (u : UserId) (a : Int) (h : String)
    (hCE : CreatorsExist db) : CreatorsExist (claimApply db u a h) := by
  intro c hc
  have hcontents : (claimApply db u a h).contents = db.contents := rfl
  rw [hcontents] at hc
  have husers : (claimApply db u a h).users =
      db.users.map (fun x => if x.id == u then
        { x with totalEarnings := x.totalEarnings + a
                 totalSales := x.totalSales + (markClaimed h u db.now a db.earnings).2.2 }
        else x) := rfl
  rw [husers, users_find_isSome_map _
    (fun x => by by_cases hx : (x.id == u) = true <;> simp [hx])]
  exact hCE c hc

theorem ce_createPurchase (db : DB) (b : UserId) (cid : ContentId)
    (hCE : CreatorsExist db) : CreatorsExist (createPurchase db b cid).1 := by
  unfold createPurchase
  cases hfind : db.contents.find? (fun c => c.id == cid) with
  | none => exact hCE
  | some content =>
    by_cases hdup : (db.purchases.find? (fun p => p.buyer == b && p.content == cid)).isSome = true
    · simp only [hdup, if_true]
      exact hCE
    · simp only [hdup, if_false, Bool.false_eq_true]
      cases hcr : db.credits.find? (fun c => c.user == b) with
      | some c0 =>
        by_cases hbal : c0.creditBalance < content.price
        · simp only [hbal, if_true, Option.getD_some]
          exact hCE
        · simp only [hbal, if_false, Option.getD_some]
          exact ce_purchaseApply db b cid content _ hCE
      | none =>
        by_cases hbal : (100 : Int) < content.price
        · simp only [hbal, if_true, Option.getD_none]
          exact hCE
        · simp only [hbal, if_false, Option.getD_none]
          exact ce_purchaseApply _ b cid content _ hCE

theorem ce_getCreditBalance (db : DB) (u : UserId) (hCE : CreatorsExist db) :
    CreatorsExist (getCreditBalance db u).1 := by
  unfold getCreditBalance
  cases hcr : db.credits.find? (fun c => c.user == u) with
  | some c0 => exact hCE
  | none => exact hCE

theorem ce_settleCredit (db : DB) (u : UserId) (ref : Option String)
    (hCE : CreatorsExist db) : CreatorsExist (settleCredit db u ref).1 := by
  unfold settleCredit
  cases hcr : db.credits.find? (fun c => c.user == u) with
  | none => exact hCE
  | some c0 =>
    by_cases hpend : (pendingPurchasesOf db u).isEmpty = true
    · simp only [hpend, if_true]
      exact hCE
    · simp only [hpend, if_false, Bool.false_eq_true]
      by_cases hval : refValid ref = true
      · simp only [hval, Bool.not_true, if_false, Bool.false_eq_true]
        by_cases hused : (c0.settledTransactions.contains (ref.getD "")) = true
        · simp only [hused, if_true]
          exact hCE
        · simp only [hused, if_false, Bool.false_eq_true]
          exact hCE
      · have hval2 : refValid ref = false := by simpa using hval
        simp only [hval2, Bool.not_false, if_true]
        exact hCE

theorem ce_claimCreatorEarnings (db : DB) (u : UserId) (a : Int) (tr : Option String)
    (hCE : CreatorsExist db) : CreatorsExist (claimCreatorEarnings db u a tr).1 := by
  unfold claimCreatorEarnings
  by_cases ha : a ≤ 0
  · simp only [ha, if_true]
    exact hCE
  · simp only [ha, if_false]
    cases hu : db.users.find? (fun x => x.id == u) with
    | none => exact hCE
    | some creator =>
      by_cases hwk : walletOk creator.walletAddress = true
      · simp only [hwk, Bool.not_true, if_false, Bool.false_eq_true]
        by_cases hpe : (pendingEarningsOf db u).isEmpty = true
        · simp only [hpe, if_true]
          exact hCE
        · simp only [hpe, if_false, Bool.false_eq_true]
          by_cases hex : ((pendingEarningsOf db u).map (·.amount)).sum < a
          · simp only [hex, if_true]
            exact hCE
          · simp only [hex, if_false]
            cases tr with
            | none => exact hCE
            | some txh => exact ce_claimApply db u a txh hCE
      · have hwk2 : walletOk creator.walletAddress = false := by simpa using hwk
        simp only [hwk2, Bool.not_false, if_true]
        exact hCE

theorem ce_step (db : DB) (op : Op) (hCE : CreatorsExist db) :
    CreatorsExist (stepOp db op) := by
  cases op with
  | purchase b c => exact ce_createPurchase db b c hCE
  | balance u => exact ce_getCreditBalance db u hCE
  | settle u r => exact ce_settleCredit db u r hCE
  | claim u a t => exact ce_claimCreatorEarnings db u a t hCE

/-! ### The ledger bound on the `totalEarnings` aggregate -/

theorem einv_createPurchase (db : DB) (b : UserId) (cid : ContentId) (w : UserId)
    (hCE : CreatorsExist db)
    (hI : ∀ v, claimedSum db v + pendingSum db v ≤ totalEarningsOf db v) :
    claimedSum (createPurchase db b cid).1 w + pendingSum (createPurchase db b cid).1 w ≤
      totalEarningsOf (createPurchase db b cid).1 w := by
  unfold createPurchase
  cases hfind : db.contents.find? (fun c => c.id == cid) with
  | none => exact hI w
  | some content =>
    have hcmem := List.mem_of_find?_eq_some hfind
    obtain ⟨rec, hfu⟩ := Option.isSome_iff_exists.mp (hCE content hcmem)
    by_cases hdup : (db.purchases.find? (fun p => p.buyer == b && p.content == cid)).isSome = true
    · simpa [hdup] using hI w
    · simp only [hdup, if_false, Bool.false_eq_true]
      cases hcr : db.credits.find? (fun c => c.user == b) with
      | some c0 =>
        by_cases hbal : c0.creditBalance < content.price
        · simpa [hbal] using hI w
        · simp only [hbal, if_false, Option.getD_some]
          show claimedSum (purchaseApply db b cid content (c0.creditBalance - content.price)) w +
              pendingSum (purchaseApply db b cid content (c0.creditBalance - content.price)) w ≤
            totalEarningsOf (purchaseApply db b cid content (c0.creditBalance - content.price)) w
          by_cases hv : w = content.creator
          · subst hv
            rw [purchaseApply_claimedSum, purchaseApply_pendingSum_self,
              purchaseApply_totalEarnings_self db b cid content _ rec hfu]
            have htot : totalEarningsOf db content.creator = rec.totalEarnings := by
              unfold totalEarningsOf
              rw [hfu]
              rfl
            have hIv := hI content.creator
            rw [htot] at hIv
            linarith
          · rw [purchaseApply_claimedSum, purchaseApply_pendingSum_other _ _ _ _ _ w hv,
              purchaseApply_totalEarnings_other _ _ _ _ _ w hv]
            exact hI w
      | none =>
        by_cases hbal : (100 : Int) < content.price
        · simpa [hbal] using hI w
        · simp only [hbal, if_false, Option.getD_none]
          have hI1 : ∀ v, claimedSum { db with credits := db.credits ++ [⟨b, 100, []⟩] } v +
              pendingSum { db with credits := db.credits ++ [⟨b, 100, []⟩] } v ≤
              totalEarningsOf { db with credits := db.credits ++ [⟨b, 100, []⟩] } v := hI
          have hfu1 : ({ db with credits := db.credits ++ [⟨b, 100, []⟩] } : DB).users.find?
              (fun x => x.id == content.creator) = some rec := hfu
          show claimedSum (purchaseApply { db with credits := db.credits ++ [⟨b, 100, []⟩] }
              b cid content ((100 : Int) - content.price)) w +
              pendingSum (purchaseApply { db with credits := db.credits ++ [⟨b, 100, []⟩] }
                b cid content ((100 : Int) - content.price)) w ≤
            totalEarningsOf (purchaseApply { db with credits := db.credits ++ [⟨b, 100, []⟩] }
              b cid content ((100 : Int) - content.price)) w
          by_cases hv : w = content.creator
          · subst hv
            rw [purchaseApply_claimedSum, purchaseApply_pendingSum_self,
              purchaseApply_totalEarnings_self _ b cid content _ rec hfu1]
            have htot : totalEarningsOf { db with credits := db.credits ++ [⟨b, 100, []⟩] }
                content.creator = rec.totalEarnings := by
              unfold totalEarningsOf
              rw [hfu1]
              rfl
            have hIv := hI1 content.creator
            rw [htot] at hIv
            linarith
          · rw [purchaseApply_claimedSum, purchaseApply_pendingSum_other _ _ _ _ _ w hv,
              purchaseApply_totalEarnings_other _ _ _ _ _ w hv]
            exact hI1 w

theorem einv_getCreditBalance (db : DB) (u : UserId) (w : UserId)
    (hI : claimedSum db w + pendingSum db w ≤ totalEarningsOf db w) :
    claimedSum (getCreditBalance db u).1 w + pendingSum (getCreditBalance db u).1 w ≤
      totalEarningsOf (getCreditBalance db u).1 w := by
  unfold getCreditBalance
  cases hcr : db.credits.find? (fun c => c.user == u) with
  | some c0 => exact hI
  | none => exact hI

theorem einv_settleCredit (db : DB) (u : UserId) (ref : Option String) (w : UserId)
    (hI : claimedSum db w + pendingSum db w ≤ totalEarningsOf db w) :
    claimedSum (settleCredit db u ref).1 w + pendingSum (settleCredit db u ref).1 w ≤
      totalEarningsOf (settleCredit db u ref).1 w := by
  unfold settleCredit
  cases hcr : db.credits.find? (fun c => c.user == u) with
  | none => exact hI
  | some c0 =>
    by_cases hpend : (pendingPurchasesOf db u).isEmpty = true
    · simpa [hpend] using hI
    · simp only [hpend, if_false, Bool.false_eq_true]
      by_cases hval : refValid ref = true
      · simp only [hval, Bool.not_true, if_false, Bool.false_eq_true]
        by_cases hused : ref.getD "" ∈ c0.settledTransactions
        · simpa [hused] using hI
        · simpa [hused, settleApply_totalEarnings, settleApply_claimedSum,
            settleApply_pendingSum] using hI
      · have hval2 : refValid ref = false := by simpa using hval
        simpa [hval2] using hI

theorem einv_claimCreatorEarnings (db : DB) (u : UserId) (a : Int) (tr : Option String)
    (w : UserId)
    (hI : ∀ v, claimedSum db v + pendingSum db v ≤ totalEarningsOf db v) :
    claimedSum (claimCreatorEarnings db u a tr).1 w +
        pendingSum (claimCreatorEarnings db u a tr).1 w ≤
      totalEarningsOf (claimCreatorEarnings db u a tr).1 w := by
  unfold claimCreatorEarnings
  by_cases ha : a ≤ 0
  · simpa [ha] using hI w
  · simp only [ha, if_false]
    cases hu : db.users.find? (fun x => x.id == u) with
    | none => exact hI w
    | some creator =>
      by_cases hwk : walletOk creator.walletAddress = true
      · simp only [hwk, Bool.not_true, if_false, Bool.false_eq_true]
        by_cases hpe : (pendingEarningsOf db u).isEmpty = true
        · simpa [hpe] using hI w
        · simp only [hpe, if_false, Bool.false_eq_true]
          by_cases hex : ((pendingEarningsOf db u).map (·.amount)).sum < a
          · simpa [hex] using hI w
          · simp only [hex, if_false]
            cases tr with
            | none => exact hI w
            | some txh =>
              show claimedSum (claimApply db u a txh) w +
                  pendingSum (claimApply db u a txh) w ≤
                totalEarningsOf (claimApply db u a txh) w
              by_cases hwu : w = u
              · subst hwu
                rw [claimApply_totalEarnings_self db w a txh creator hu,
                  claimApply_claimedSum_self]
                have hpend2 : pendingSum (claimApply db w a txh) w =
                    amtSum ((pendList w db.earnings).drop
                      (ccount a (pendList w db.earnings))) :=
                  congrArg amtSum (claimApply_pendList_self db w a txh)
                rw [hpend2]
                have h0a : 0 < a := not_le.mp ha
                have hsum : amtSum (pendList w db.earnings) =
                    amtSum ((pendList w db.earnings).take
                      (ccount a (pendList w db.earnings))) +
                    amtSum ((pendList w db.earnings).drop
                      (ccount a (pendList w db.earnings))) := by
                  conv_lhs =>
                    rw [← List.take_append_drop (ccount a (pendList w db.earnings))
                      (pendList w db.earnings)]
                  rw [amtSum_append]
                have hIu := hI w
                have htot : totalEarningsOf db w = creator.totalEarnings := by
                  unfold totalEarningsOf
                  rw [hu]
                  rfl
                have hpb : pendingSum db w = amtSum (pendList w db.earnings) := rfl
                rw [htot, hpb] at hIu
                linarith
              · rw [claimApply_totalEarnings_other db u a txh w hwu,
                  claimApply_claimedSum_other db u a txh w hwu,
                  claimApply_pendingSum_other db u a txh w hwu]
                exact hI w
      · have hwk2 : walletOk creator.walletAddress = false := by simpa using hwk
        simpa [hwk2] using hI w

theorem einv_step (db : DB) (op : Op) (hCE : CreatorsExist db)
    (hI : ∀ v, claimedSum db v + pendingSum db v ≤ totalEarningsOf db v) :
    ∀ v, claimedSum (stepOp db op) v + pendingSum (stepOp db op) v ≤
      totalEarningsOf (stepOp db op) v := by
  intro v
  cases op with
  | purchase b c => exact einv_createPurchase db b c v hCE hI
  | balance u => exact einv_getCreditBalance db u v (hI v)
  | settle u r => exact einv_settleCredit db u r v (hI v)
  | claim u a t => exact einv_claimCreatorEarnings db u a t v hI

theorem einv_runOps (db : DB) (ops : List Op) (hCE : CreatorsExist db)
    (hI : ∀ v, claimedSum db v + pendingSum db v ≤ totalEarningsOf db v) :
    ∀ v, claimedSum (runOps db ops) v + pendingSum (runOps db ops) v ≤
      totalEarningsOf (runOps db ops) v := by
  induction ops generalizing db with
  | nil => exact hI
  | cons op ops ih =>
    exact ih (stepOp db op) (ce_step db op hCE) (einv_step db op hCE hI)

/-! ### Success-path inversion -/

theorem strStarts_credit_settled (r : String) :
    strStarts "credit_" ("settled_" ++ r) = false := by
  unfold strStarts
  rw [String.data_append "settled_" r]
  rfl

theorem settleCredit_ok_inv (db : DB) (u : UserId) (ref : Option String)
    (h : resOk (settleCredit db u ref).2 = true) :
    ∃ c0, db.credits.find? (fun c => c.user == u) = some c0 ∧
      pendingPurchasesOf db u ≠ [] ∧ refValid ref = true ∧
      ref.getD "" ∉ c0.settledTransactions ∧
      (settleCredit db u ref).1 = settleApply db u (ref.getD "") := by
  unfold settleCredit at h ⊢
  cases hcr : db.credits.find? (fun c => c.user == u) with
  | none => rw [hcr] at h; simp [resOk] at h
  | some c0 =>
    rw [hcr] at h
    by_cases hpend : (pendingPurchasesOf db u).isEmpty = true
    · simp [resOk, hpend] at h
    · by_cases hval : refValid ref = true
      · by_cases hused : ref.getD "" ∈ c0.settledTransactions
        · simp [resOk, hpend, hval, hused] at h
        · refine ⟨c0, rfl, by simpa [List.isEmpty_iff] using hpend, hval, hused, ?_⟩
          simp [hpend, hval, hused]
      · simp [resOk, hpend, hval] at h

theorem claimCreatorEarnings_ok_inv (db : DB) (u : UserId) (a : Int)
    (tr : Option String) (h : resOk (claimCreatorEarnings db u a tr).2 = true) :
    0 < a ∧ pendingEarningsOf db u ≠ [] ∧ a ≤ pendingSum db u ∧
      ∃ txh, tr = some txh ∧
        (claimCreatorEarnings db u a tr).1 = claimApply db u a txh := by
  unfold claimCreatorEarnings at h ⊢
  by_cases ha : a ≤ 0
  · simp [resOk, ha] at h
  · cases hu : db.users.find? (fun x => x.id == u) with
    | none => rw [hu] at h; simp [resOk, ha] at h
    | some creator =>
      rw [hu] at h
      by_cases hwk : walletOk creator.walletAddress = true
      · by_cases hpe : (pendingEarningsOf db u).isEmpty = true
        · simp [resOk, ha, hwk, hpe] at h
        · by_cases hex : ((pendingEarningsOf db u).map (·.amount)).sum < a
          · simp [resOk, ha, hwk, hpe, hex] at h
          · cases tr with
            | none => simp [resOk, ha, hwk, hpe, hex] at h
            | some txh =>
              refine ⟨not_le.mp ha, by simpa [List.isEmpty_iff] using hpe,
                not_lt.mp hex, txh, rfl, ?_⟩
              simp [ha, hwk, hpe, hex]
      · simp [resOk, ha, hwk] at h

theorem balanceOf_settleApply_self (db : DB) (u : UserId) (r : String)
    (c0 : SimpleCredit) (hcr : db.credits.find? (fun c => c.user == u) = some c0) :
    balanceOf (settleApply db u r) u = some 100 := by
  unfold balanceOf settleApply
  rw [find?_map_pred _ _ (fun x => by by_cases hx : (x.user == u) = true <;> simp [hx]), hcr]
  have hid := List.find?_some hcr
  have hcu : c0.user = u := by simpa using hid
  simp [hcu]

theorem settledOf_settleApply_self (db : DB) (u : UserId) (r : String)
    (c0 : SimpleCredit) (hcr : db.credits.find? (fun c => c.user == u) = some c0) :
    r ∈ settledOf (settleApply db u r) u := by
  unfold settledOf settleApply
  rw [find?_map_pred _ _ (fun x => by by_cases hx : (x.user == u) = true <;> simp [hx]), hcr]
  have hid := List.find?_some hcr
  have hcu : c0.user = u := by simpa using hid
  simp [hcu]

theorem pendingPurchasesOf_settleApply (db : DB) (u : UserId) (r : String) :
    pendingPurchasesOf (settleApply db u r) u = [] := by
  unfold pendingPurchasesOf settleApply
  rw [List.filter_eq_nil_iff]
  intro p hp
  simp only [List.mem_map] at hp
  obtain ⟨q, hq, rfl⟩ := hp
  by_cases hqm : (q.buyer == u && strStarts "credit_" q.transactionHash) = true
  · simp [hqm, strStarts_credit_settled]
  · simp only [Bool.not_eq_true] at hqm
    simp [hqm]

theorem balanceOf_purchaseApply_self (db : DB) (b : UserId) (cid : ContentId)
    (content : Content) (nb : Int) (c0 : SimpleCredit)
    (hcr : db.credits.find? (fun c => c.user == b) = some c0) :
    balanceOf (purchaseApply db b cid content nb) b = some nb := by
  unfold balanceOf purchaseApply
  rw [find?_map_pred _ _ (fun x => by by_cases hx : (x.user == b) = true <;> simp [hx]), hcr]
  have hid := List.find?_some hcr
  have hcu : c0.user = b := by simpa using hid
  simp [hcu]

theorem createdSorted_iff_pairwise : ∀ l : List Earning,
    createdSorted l = true ↔ l.Pairwise (fun a b => a.createdAt ≤ b.createdAt)
  | [] => by simp [createdSorted]
  | [a] => by simp [createdSorted]
  | a :: b :: es => by
    have ih := createdSorted_iff_pairwise (b :: es)
    constructor
    · intro h
      simp only [createdSorted, Bool.and_eq_true, decide_eq_true_eq] at h
      obtain ⟨hab, hrest⟩ := h
      have hpw := ih.mp hrest
      refine List.Pairwise.cons ?_ hpw
      intro x hx
      rcases List.mem_cons.mp hx with rfl | hx
      · exact hab
      · exact le_trans hab (List.rel_of_pairwise_cons hpw hx)
    · intro h
      have h1 := List.rel_of_pairwise_cons h (List.mem_cons_self b es)
      have h2 := ih.mpr h.of_cons
      simp [createdSorted, h1, h2]

theorem createdSorted_pendList (c : UserId) (es : List Earning)
    (hs : createdSorted es = true) : createdSorted (pendList c es) = true := by
  rw [createdSorted_iff_pairwise] at hs ⊢
  exact hs.sublist (List.filter_sublist es)

/-! ### The claims -/

/-- C1: for every buyer and every sequence of ledger operations (lazy
creation via `getCreditBalance` or `createPurchase`, charge by
`createPurchase`, reset by `settleCredit`), the buyer's `creditBalance`
stays in the closed interval [0, 100]: creation sets it to 100, a
purchase of price `p` only proceeds when `p ≤ creditBalance` and
decrements by exactly `p`, and settlement sets it back to 100.  Stated
as: from any state satisfying the schema bounds, every state reachable
by the four ledger operations keeps every credit balance in [0, 100]. -/
theorem C1_creditBalance_in_range (db : DB) (ops : List Op)
    (hP : PriceInv db) (hC : CreditInv db) (hE : EarnNonneg db) :
    CreditInv (runOps db ops) :=
  (inv_runOps db ops ⟨hP, hC, hE⟩).2.1

/-- Witness for C1: a concrete initial state and a concrete operation
sequence exercising purchase, balance query, settlement and claim. -/
theorem C1_witness :
    PriceInv ⟨[⟨0, 1, 30, 0⟩], [⟨1, some "0xW", 0, 0⟩], [], [], [], 5, 0⟩ ∧
      CreditInv ⟨[⟨0, 1, 30, 0⟩], [⟨1, some "0xW", 0, 0⟩], [], [], [], 5, 0⟩ ∧
      EarnNonneg ⟨[⟨0, 1, 30, 0⟩], [⟨1, some "0xW", 0, 0⟩], [], [], [], 5, 0⟩ ∧
      CreditInv (runOps ⟨[⟨0, 1, 30, 0⟩], [⟨1, some "0xW", 0, 0⟩], [], [], [], 5, 0⟩
        [.purchase 7 0, .balance 7, .settle 7 (some "0xabc"), .claim 1 30 (some "0xT")]) :=
  ⟨by decide, by decide, by decide,
    C1_creditBalance_in_range _ _ (by decide) (by decide) (by decide)⟩

/-- C3 as stated is false on the code: with one pending earning of 50,
a successful claim of 30 marks the whole earning claimed, so the sum of
claimed earning amounts becomes 50 while the creator's `totalEarnings`
aggregate is incremented by the requested 30 only. -/
theorem C3_counterexample :
    resOk (claimCreatorEarnings ⟨[], [⟨1, some "0xW", 0, 0⟩], [], [],
        [⟨0, 1, 0, 0, 50, .pending, none, none, 0⟩], 1, 1⟩ 1 30 (some "0xT")).2 = true ∧
      claimedSum (claimCreatorEarnings ⟨[], [⟨1, some "0xW", 0, 0⟩], [], [],
        [⟨0, 1, 0, 0, 50, .pending, none, none, 0⟩], 1, 1⟩ 1 30 (some "0xT")).1 1 = 50 ∧
      totalEarningsOf (claimCreatorEarnings ⟨[], [⟨1, some "0xW", 0, 0⟩], [], [],
        [⟨0, 1, 0, 0, 50, .pending, none, none, 0⟩], 1, 1⟩ 1 30 (some "0xT")).1 1 = 30 ∧
      (50 : Int) ≠ 30 := by
  decide

/-- C3 amended: the claimed sum does not equal the creator's
`totalEarnings`, because `totalEarnings` is credited twice — the
Purchase schema's pre-save hook adds the purchase amount already at
purchase time, and the claim workflow adds the requested amount again at
claim time (moreover whole earnings are consumed while only the
requested amount is added).  What the code maintains instead, for every
creator and every sequence of ledger operations, is the bound: the sum
of claimed earning amounts plus the sum of pending earning amounts never
exceeds the creator's `totalEarnings` aggregate. -/
theorem C3_claimedSum_bounded_by_totalEarnings (db : DB) (ops : List Op)
    (hCE : CreatorsExist db)
    (hI : ∀ v, claimedSum db v + pendingSum db v ≤ totalEarningsOf db v) :
    ∀ v, claimedSum (runOps db ops) v + pendingSum (runOps db ops) v ≤
      totalEarningsOf (runOps db ops) v :=
  einv_runOps db ops hCE hI

/-- Witness for the amended C3: a purchase, a settlement and a
successful claim starting from a fresh state. -/
theorem C3_witness :
    CreatorsExist ⟨[⟨0, 1, 30, 0⟩], [⟨1, some "0xW", 0, 0⟩], [], [], [], 0, 0⟩ ∧
      (∀ v, claimedSum ⟨[⟨0, 1, 30, 0⟩], [⟨1, some "0xW", 0, 0⟩], [], [], [], 0, 0⟩ v +
          pendingSum ⟨[⟨0, 1, 30, 0⟩], [⟨1, some "0xW", 0, 0⟩], [], [], [], 0, 0⟩ v ≤
        totalEarningsOf ⟨[⟨0, 1, 30, 0⟩], [⟨1, some "0xW", 0, 0⟩], [], [], [], 0, 0⟩ v) ∧
      ∀ v, claimedSum (runOps ⟨[⟨0, 1, 30, 0⟩], [⟨1, some "0xW", 0, 0⟩], [], [], [], 0, 0⟩
            [.purchase 7 0, .settle 7 (some "0xabc"), .claim 1 30 (some "0xT")]) v +
          pendingSum (runOps ⟨[⟨0, 1, 30, 0⟩], [⟨1, some "0xW", 0, 0⟩], [], [], [], 0, 0⟩
            [.purchase 7 0, .settle 7 (some "0xabc"), .claim 1 30 (some "0xT")]) v ≤
        totalEarningsOf (runOps ⟨[⟨0, 1, 30, 0⟩], [⟨1, some "0xW", 0, 0⟩], [], [], [], 0, 0⟩
          [.purchase 7 0, .settle 7 (some "0xabc"), .claim 1 30 (some "0xT")]) v := by
  have hI : ∀ v,
      claimedSum ⟨[⟨0, 1, 30, 0⟩], [⟨1, some "0xW", 0, 0⟩], [], [], [], 0, 0⟩ v +
        pendingSum ⟨[⟨0, 1, 30, 0⟩], [⟨1, some "0xW", 0, 0⟩], [], [], [], 0, 0⟩ v ≤
      totalEarningsOf ⟨[⟨0, 1, 30, 0⟩], [⟨1, some "0xW", 0, 0⟩], [], [], [], 0, 0⟩ v := by
    intro v
    unfold totalEarningsOf
    cases hf : List.find? (fun x => x.id == v) [(⟨1, some "0xW", 0, 0⟩ : UserRec)] with
    | none =>
      simp [claimedSum, claimedEarningsOf, claimedList, pendingSum,
        pendingEarningsOf, pendList, amtSum]
    | some x =>
      have hm := List.mem_of_find?_eq_some hf
      simp only [List.mem_singleton] at hm
      subst hm
      simp [claimedSum, claimedEarningsOf, claimedList, pendingSum,
        pendingEarningsOf, pendList, amtSum]
  exact ⟨by decide, hI, C3_claimedSum_bounded_by_totalEarnings _ _ (by decide) hI⟩

/-- C7: when the external payout transfer invoked by
`claimCreatorEarnings` fails, the operation mutates nothing (the state
is returned unchanged, so every pending earning keeps `status=pending`
and the creator's totals are unchanged), and — whenever the preceding
validations pass, i.e. the operation actually reaches the transfer —
the surfaced error is `PayoutFailed`. -/
theorem C7_payout_failure_all_or_nothing (db : DB) (u : UserId) (a : Int) :
    (claimCreatorEarnings db u a none).1 = db ∧
      (0 < a → walletOk (walletOf db u) = true → pendingEarningsOf db u ≠ [] →
        a ≤ pendingSum db u →
        (claimCreatorEarnings db u a none).2 = .error .PayoutFailed) := by
  unfold claimCreatorEarnings
  by_cases ha : a ≤ 0
  · refine ⟨by simp [ha], ?_⟩
    intro h0 _ _ _
    omega
  · simp only [ha, if_false]
    cases hu : db.users.find? (fun x => x.id == u) with
    | none =>
      refine ⟨rfl, ?_⟩
      intro _ hwk _ _
      have hwof : walletOf db u = none := by unfold walletOf; rw [hu]; rfl
      rw [hwof] at hwk
      exact absurd hwk (by simp [walletOk])
    | some creator =>
      have hwof : walletOf db u = creator.walletAddress := by
        unfold walletOf
        rw [hu]
        rfl
      by_cases hwk : walletOk creator.walletAddress = true
      · by_cases hpe : (pendingEarningsOf db u).isEmpty = true
        · refine ⟨by simp [hwk, hpe], ?_⟩
          intro _ _ hne _
          exact absurd (List.isEmpty_iff.mp hpe) hne
        · by_cases hex : ((pendingEarningsOf db u).map (·.amount)).sum < a
          · refine ⟨by simp [hwk, hpe, hex], ?_⟩
            intro _ _ _ hle
            exact absurd hle (not_le.mpr hex)
          · exact ⟨by simp [hwk, hpe, hex], fun _ _ _ _ => by simp [hwk, hpe, hex]⟩
      · refine ⟨by simp [hwk], ?_⟩
        intro _ hwk2 _ _
        rw [hwof] at hwk2
        exact absurd hwk2 hwk

/-- Witness for C7: a creator with a wallet and one pending earning of
50 claims 30 but the transfer fails; the state is unchanged and the
error is `PayoutFailed`. -/
theorem C7_witness :
    (claimCreatorEarnings ⟨[], [⟨1, some "0xW", 0, 0⟩], [], [],
        [⟨0, 1, 0, 0, 50, .pending, none, none, 0⟩], 1, 1⟩ 1 30 none).1 =
      ⟨[], [⟨1, some "0xW", 0, 0⟩], [], [],
        [⟨0, 1, 0, 0, 50, .pending, none, none, 0⟩], 1, 1⟩ ∧
      (claimCreatorEarnings ⟨[], [⟨1, some "0xW", 0, 0⟩], [], [],
        [⟨0, 1, 0, 0, 50, .pending, none, none, 0⟩], 1, 1⟩ 1 30 none).2 =
        .error .PayoutFailed :=
  ⟨(C7_payout_failure_all_or_nothing _ 1 30).1,
    (C7_payout_failure_all_or_nothing _ 1 30).2 (by decide) (by decide)
      (by decide) (by decide)⟩

theorem credits_find_settleApply (db : DB) (u : UserId) (r : String) :
    (settleApply db u r).credits.find? (fun c => c.user == u) =
      (db.credits.find? (fun c => c.user == u)).map
        (fun c => if c.user == u then
          { c with creditBalance := 100
                   settledTransactions := c.settledTransactions ++ [r] } else c) :=
  find?_map_pred _ _ (fun x => by by_cases hx : (x.user == u) = true <;> simp [hx]) db.credits

/-- C2 as stated is false on the code: immediately after a successful
settlement all of the buyer's on-credit purchases have been rewritten to
`settled_<hash>`, so a repeat `settleCredit` with the same reference
fails the "no pending purchases" check — error `NothingToSettle`, not
`DuplicateSettlement` (the duplicate-reference check comes later). -/
theorem C2_counterexample :
    resOk (settleCredit ⟨[], [], [⟨7, 70, []⟩],
        [⟨0, 7, 0, 30, "credit_1", "completed", 1⟩], [], 2, 1⟩ 7 (some "0xabc")).2 = true ∧
      (settleCredit (settleCredit ⟨[], [], [⟨7, 70, []⟩],
        [⟨0, 7, 0, 30, "credit_1", "completed", 1⟩], [], 2, 1⟩ 7 (some "0xabc")).1
        7 (some "0xabc")).2 = .error .NothingToSettle ∧
      Err.NothingToSettle ≠ Err.DuplicateSettlement := by
  decide

/-- C2 amended: after a successful `settleCredit(buyer, ref)` the
buyer's `creditBalance` equals the allowance (100) and `ref` is recorded
in `settledTransactions`; an immediate repeat with the same `ref` fails
with `NothingToSettle` (no unsettled purchases remain), and in any state
in which `ref` is recorded for the buyer a repeat `settleCredit` never
succeeds — with `DuplicateSettlement` exactly when the buyer again has
unsettled on-credit purchases. -/
theorem C2_settle_then_repeat (db : DB) (u : UserId) (ref : Option String)
    (h : resOk (settleCredit db u ref).2 = true) :
    balanceOf (settleCredit db u ref).1 u = some 100 ∧
      ref.getD "" ∈ settledOf (settleCredit db u ref).1 u ∧
      (settleCredit (settleCredit db u ref).1 u ref).2 = .error .NothingToSettle ∧
      (∀ db2, ref.getD "" ∈ settledOf db2 u →
        resOk (settleCredit db2 u ref).2 = false ∧
        (pendingPurchasesOf db2 u ≠ [] →
          (settleCredit db2 u ref).2 = .error .DuplicateSettlement)) := by
  obtain ⟨c0, hcr, hpend, hval, hused, hres⟩ := settleCredit_ok_inv db u ref h
  rw [hres]
  refine ⟨balanceOf_settleApply_self db u _ c0 hcr,
    settledOf_settleApply_self db u _ c0 hcr, ?_, ?_⟩
  · unfold settleCredit
    rw [credits_find_settleApply, hcr]
    simp [pendingPurchasesOf_settleApply]
  · intro db2 hmem
    unfold settledOf at hmem
    unfold settleCredit
    cases hf : db2.credits.find? (fun c => c.user == u) with
    | none =>
      rw [hf] at hmem
      exact absurd hmem (by simp)
    | some c2 =>
      rw [hf] at hmem
      have hmem2 : ref.getD "" ∈ c2.settledTransactions := by simpa using hmem
      by_cases hpend2 : (pendingPurchasesOf db2 u).isEmpty = true
      · refine ⟨by simp [resOk, hpend2], ?_⟩
        intro hne
        exact absurd (List.isEmpty_iff.mp hpend2) hne
      · refine ⟨by simp [resOk, hpend2, hval, hmem2], ?_⟩
        intro _
        simp [hpend2, hval, hmem2]

/-- Witness for the amended C2 at a concrete state: one unsettled
on-credit purchase of 30, settled with reference `0xabc`. -/
theorem C2_witness :
    resOk (settleCredit ⟨[], [], [⟨7, 70, []⟩],
        [⟨0, 7, 0, 30, "credit_1", "completed", 1⟩], [], 2, 1⟩ 7 (some "0xabc")).2 = true ∧
      (balanceOf (settleCredit ⟨[], [], [⟨7, 70, []⟩],
          [⟨0, 7, 0, 30, "credit_1", "completed", 1⟩], [], 2, 1⟩ 7 (some "0xabc")).1 7 =
        some 100 ∧
      "0xabc" ∈ settledOf (settleCredit ⟨[], [], [⟨7, 70, []⟩],
          [⟨0, 7, 0, 30, "credit_1", "completed", 1⟩], [], 2, 1⟩ 7 (some "0xabc")).1 7 ∧
      (settleCredit (settleCredit ⟨[], [], [⟨7, 70, []⟩],
          [⟨0, 7, 0, 30, "credit_1", "completed", 1⟩], [], 2, 1⟩ 7 (some "0xabc")).1
          7 (some "0xabc")).2 = .error .NothingToSettle ∧
      (∀ db2, "0xabc" ∈ settledOf db2 7 →
        resOk (settleCredit db2 7 (some "0xabc")).2 = false ∧
        (pendingPurchasesOf db2 7 ≠ [] →
          (settleCredit db2 7 (some "0xabc")).2 = .error .DuplicateSettlement))) :=
  ⟨by decide, C2_settle_then_repeat _ 7 (some "0xabc") (by decide)⟩

/-- C5: for a buyer with credit balance `b` buying content priced `p`
(content exists, not already purchased): if `p ≤ b` the purchase
succeeds and the balance afterwards is exactly `b - p`; if `p > b` the
purchase fails with `InsufficientCredit`, the state is returned
unchanged (so no Purchase and no Earning record is created) and the
balance stays `b`. -/
theorem C5_purchase_decrements_exactly (db : DB) (b : UserId) (cid : ContentId)
    (content : Content) (cr : SimpleCredit)
    (hc : db.contents.find? (fun c => c.id == cid) = some content)
    (hp : db.purchases.find? (fun p => p.buyer == b && p.content == cid) = none)
    (hcr : db.credits.find? (fun c => c.user == b) = some cr) :
    (content.price ≤ cr.creditBalance →
      resOk (createPurchase db b cid).2 = true ∧
      balanceOf (createPurchase db b cid).1 b =
        some (cr.creditBalance - content.price)) ∧
    (cr.creditBalance < content.price →
      createPurchase db b cid = (db, .error .InsufficientCredit)) := by
  constructor
  · intro hle
    have hnlt : ¬ cr.creditBalance < content.price := not_lt.mpr hle
    unfold createPurchase
    rw [hc]
    simp only [hp, hcr, Option.isSome_none, Bool.false_eq_true, if_false,
      Option.getD_some, hnlt]
    exact ⟨rfl, balanceOf_purchaseApply_self db b cid content _ cr hcr⟩
  · intro hlt
    unfold createPurchase
    rw [hc]
    simp [hp, hcr, hlt]

/-- Witness for C5: content priced 30, a buyer with balance 100
(success case) and the implication hypotheses checked concretely. -/
theorem C5_witness :
    ((30 : Int) ≤ 100 →
      resOk (createPurchase ⟨[⟨0, 1, 30, 0⟩], [], [⟨7, 100, []⟩], [], [], 5, 0⟩ 7 0).2 =
        true ∧
      balanceOf (createPurchase ⟨[⟨0, 1, 30, 0⟩], [], [⟨7, 100, []⟩], [], [], 5, 0⟩ 7 0).1
        7 = some ((100 : Int) - 30)) ∧
    ((100 : Int) < 30 →
      createPurchase ⟨[⟨0, 1, 30, 0⟩], [], [⟨7, 100, []⟩], [], [], 5, 0⟩ 7 0 =
        (⟨[⟨0, 1, 30, 0⟩], [], [⟨7, 100, []⟩], [], [], 5, 0⟩,
          .error .InsufficientCredit)) :=
  C5_purchase_decrements_exactly _ 7 0 ⟨0, 1, 30, 0⟩ ⟨7, 100, []⟩
    (by decide) (by decide) (by decide)

/-- C9: every successful `createPurchase` appends exactly one `Purchase`
and exactly one `CreatorEarnings` record; the earning belongs to the
content's creator, has `status = pending`, is linked to the new purchase,
and its amount equals the purchase's amount (the content price at
purchase time). -/
theorem C9_purchase_creates_one_pending_earning (db : DB) (b : UserId)
    (cid : ContentId) (h : resOk (createPurchase db b cid).2 = true) :
    ∃ content, db.contents.find? (fun c => c.id == cid) = some content ∧
      (createPurchase db b cid).1.purchases = db.purchases ++
        [⟨db.nextId, b, cid, content.price, "credit_" ++ toString db.now,
          "completed", db.now⟩] ∧
      (createPurchase db b cid).1.earnings = db.earnings ++
        [⟨db.nextId + 1, content.creator, cid, db.nextId, content.price,
          .pending, none, none, db.now⟩] := by
  unfold createPurchase at h ⊢
  cases hc : db.contents.find? (fun c => c.id == cid) with
  | none => rw [hc] at h; simp [resOk] at h
  | some content =>
    rw [hc] at h
    refine ⟨content, rfl, ?_⟩
    by_cases hdup : (db.purchases.find? (fun p => p.buyer == b && p.content == cid)).isSome = true
    · simp [resOk, hdup] at h
    · cases hcr : db.credits.find? (fun c => c.user == b) with
      | some c0 =>
        rw [hcr] at h
        by_cases hbal : c0.creditBalance < content.price
        · simp [resOk, hdup, hbal] at h
        · constructor <;> simp [hdup, hcr, hbal, purchaseApply]
      | none =>
        rw [hcr] at h
        by_cases hbal : (100 : Int) < content.price
        · simp [resOk, hdup, hbal] at h
        · constructor <;> simp [hdup, hcr, hbal, purchaseApply]

/-- Witness for C9: a successful purchase of content priced 30. -/
theorem C9_witness :
    ∃ content,
      (⟨[⟨0, 1, 30, 0⟩], [], [⟨7, 100, []⟩], [], [], 5, 0⟩ : DB).contents.find?
        (fun c => c.id == 0) = some content ∧
      (createPurchase ⟨[⟨0, 1, 30, 0⟩], [], [⟨7, 100, []⟩], [], [], 5, 0⟩ 7 0).1.purchases =
        ([] : List Purchase) ++
        [⟨0, 7, 0, content.price, "credit_" ++ toString 5, "completed", 5⟩] ∧
      (createPurchase ⟨[⟨0, 1, 30, 0⟩], [], [⟨7, 100, []⟩], [], [], 5, 0⟩ 7 0).1.earnings =
        ([] : List Earning) ++
        [⟨0 + 1, content.creator, 0, 0, content.price, .pending, none, none, 5⟩] :=
  C9_purchase_creates_one_pending_earning
    ⟨[⟨0, 1, 30, 0⟩], [], [⟨7, 100, []⟩], [], [], 5, 0⟩ 7 0 (by decide)

/-- C10: for content priced exactly 0 (the minimum the content schema
allows), `createPurchase` succeeds for any not-yet-purchasing buyer
regardless of credit balance — including balance 0, since the
insufficiency check is strict less-than — creating a Purchase and a
pending Earning of amount 0 while leaving the buyer's `creditBalance`
unchanged. -/
theorem C10_free_content_purchase (db : DB) (b : UserId) (cid : ContentId)
    (content : Content) (cr : SimpleCredit)
    (hc : db.contents.find? (fun c => c.id == cid) = some content)
    (hzero : content.price = 0)
    (hp : db.purchases.find? (fun p => p.buyer == b && p.content == cid) = none)
    (hcr : db.credits.find? (fun c => c.user == b) = some cr)
    (hnn : 0 ≤ cr.creditBalance) :
    resOk (createPurchase db b cid).2 = true ∧
      balanceOf (createPurchase db b cid).1 b = some cr.creditBalance ∧
      (createPurchase db b cid).1.earnings = db.earnings ++
        [⟨db.nextId + 1, content.creator, cid, db.nextId, 0,
          .pending, none, none, db.now⟩] := by
  have hnlt : ¬ cr.creditBalance < content.price := by
    rw [hzero]
    exact not_lt.mpr hnn
  unfold createPurchase
  rw [hc]
  simp only [hp, hcr, Option.isSome_none, Bool.false_eq_true, if_false,
    Option.getD_some, hnlt]
  refine ⟨rfl, ?_, ?_⟩
  · rw [show cr.creditBalance - content.price = cr.creditBalance by rw [hzero]; ring]
    exact balanceOf_purchaseApply_self db b cid content _ cr hcr
  · simp [purchaseApply, hzero]

/-- Witness for C10: free content, buyer with balance 0. -/
theorem C10_witness :
    resOk (createPurchase ⟨[⟨0, 1, 0, 0⟩], [], [⟨7, 0, []⟩], [], [], 5, 0⟩ 7 0).2 = true ∧
      balanceOf (createPurchase ⟨[⟨0, 1, 0, 0⟩], [], [⟨7, 0, []⟩], [], [], 5, 0⟩ 7 0).1 7 =
        some (0 : Int) ∧
      (createPurchase ⟨[⟨0, 1, 0, 0⟩], [], [⟨7, 0, []⟩], [], [], 5, 0⟩ 7 0).1.earnings =
        ([] : List Earning) ++ [⟨0 + 1, 1, 0, 0, 0, .pending, none, none, 5⟩] :=
  C10_free_content_purchase ⟨[⟨0, 1, 0, 0⟩], [], [⟨7, 0, []⟩], [], [], 5, 0⟩ 7 0
    ⟨0, 1, 0, 0⟩ ⟨7, 0, []⟩ (by decide) (by decide) (by decide) (by decide) (by decide)

/-- C6 as stated is false on the code: for a creator with a wallet but
no pending earnings, any positive requested amount exceeds the pending
sum (which is 0), yet the error is `NoPendingEarnings` — the emptiness
check precedes the exceeds-available check. -/
theorem C6_counterexample :
    pendingSum ⟨[], [⟨1, some "0xW", 0, 0⟩], [], [], [], 0, 0⟩ 1 < 5 ∧
      (claimCreatorEarnings ⟨[], [⟨1, some "0xW", 0, 0⟩], [], [], [], 0, 0⟩
        1 5 (some "0xT")).2 = .error .NoPendingEarnings ∧
      Err.NoPendingEarnings ≠ Err.ExceedsAvailable := by
  decide

/-- C6 amended: `claimCreatorEarnings(creator, A)` never succeeds when
`A` exceeds the sum of the creator's pending earning amounts, and it
changes no state; the error is `ExceedsAvailable` provided the creator
has a non-empty wallet address and at least one pending earning
(otherwise the earlier `NoWalletAddress` / `NoPendingEarnings` /
`InvalidAmount` checks fire first). -/
theorem C6_claim_never_exceeds_available (db : DB) (u : UserId) (a : Int)
    (tr : Option String) (hE : EarnNonneg db) (hgt : pendingSum db u < a) :
    (claimCreatorEarnings db u a tr).1 = db ∧
      resOk (claimCreatorEarnings db u a tr).2 = false ∧
      (walletOk (walletOf db u) = true → pendingEarningsOf db u ≠ [] →
        (claimCreatorEarnings db u a tr).2 = .error .ExceedsAvailable) := by
  have hps : 0 ≤ pendingSum db u := by
    apply List.sum_nonneg
    intro x hx
    simp only [List.mem_map] at hx
    obtain ⟨e, he, rfl⟩ := hx
    exact hE e (List.mem_of_mem_filter he)
  unfold claimCreatorEarnings
  by_cases ha : a ≤ 0
  · refine ⟨by simp [ha], by simp [resOk, ha], ?_⟩
    intro _ _
    linarith
  · simp only [ha, if_false]
    cases hu : db.users.find? (fun x => x.id == u) with
    | none =>
      refine ⟨rfl, by simp [resOk], ?_⟩
      intro hwk _
      have hwof : walletOf db u = none := by unfold walletOf; rw [hu]; rfl
      rw [hwof] at hwk
      simp [walletOk] at hwk
    | some creator =>
      have hwof : walletOf db u = creator.walletAddress := by
        unfold walletOf
        rw [hu]
        rfl
      by_cases hwk : walletOk creator.walletAddress = true
      · by_cases hpe : (pendingEarningsOf db u).isEmpty = true
        · refine ⟨by simp [ha, hwk, hpe], by simp [resOk, ha, hwk, hpe], ?_⟩
          intro _ hne
          exact absurd (List.isEmpty_iff.mp hpe) hne
        · have hex : ((pendingEarningsOf db u).map (·.amount)).sum < a := hgt
          refine ⟨by simp [ha, hwk, hpe, hex], by simp [resOk, ha, hwk, hpe, hex], ?_⟩
          intro _ _
          simp [ha, hwk, hpe, hex]
      · refine ⟨by simp [ha, hwk], by simp [resOk, ha, hwk], ?_⟩
        intro hwk2 _
        rw [hwof] at hwk2
        exact absurd hwk2 hwk

/-- Witness for the amended C6: creator 1 has one pending earning of 10
and requests 50; the call fails with `ExceedsAvailable` and the state is
unchanged. -/
theorem C6_witness :
    EarnNonneg ⟨[], [⟨1, some "0xW", 0, 0⟩], [], [],
        [⟨0, 1, 0, 0, 10, .pending, none, none, 0⟩], 1, 1⟩ ∧
      pendingSum ⟨[], [⟨1, some "0xW", 0, 0⟩], [], [],
        [⟨0, 1, 0, 0, 10, .pending, none, none, 0⟩], 1, 1⟩ 1 < 50 ∧
      ((claimCreatorEarnings ⟨[], [⟨1, some "0xW", 0, 0⟩], [], [],
          [⟨0, 1, 0, 0, 10, .pending, none, none, 0⟩], 1, 1⟩ 1 50 (some "0xT")).1 =
        ⟨[], [⟨1, some "0xW", 0, 0⟩], [], [],
          [⟨0, 1, 0, 0, 10, .pending, none, none, 0⟩], 1, 1⟩ ∧
      resOk (claimCreatorEarnings ⟨[], [⟨1, some "0xW", 0, 0⟩], [], [],
          [⟨0, 1, 0, 0, 10, .pending, none, none, 0⟩], 1, 1⟩ 1 50 (some "0xT")).2 = false ∧
      (walletOk (walletOf ⟨[], [⟨1, some "0xW", 0, 0⟩], [], [],
          [⟨0, 1, 0, 0, 10, .pending, none, none, 0⟩], 1, 1⟩ 1) = true →
        pendingEarningsOf ⟨[], [⟨1, some "0xW", 0, 0⟩], [], [],
          [⟨0, 1, 0, 0, 10, .pending, none, none, 0⟩], 1, 1⟩ 1 ≠ [] →
        (claimCreatorEarnings ⟨[], [⟨1, some "0xW", 0, 0⟩], [], [],
          [⟨0, 1, 0, 0, 10, .pending, none, none, 0⟩], 1, 1⟩ 1 50 (some "0xT")).2 =
          .error .ExceedsAvailable)) :=
  ⟨by decide, by decide,
    C6_claim_never_exceeds_available _ 1 50 (some "0xT") (by decide) (by decide)⟩

/-- C8 as stated is false on the code: `settleCredit` checks only that
the supplied reference is a present, non-empty string; it performs no
transaction-hash-shape validation, so the non-hash string `"hello"`
settles successfully instead of failing with `InvalidReference`. -/
theorem C8_counterexample :
    resOk (settleCredit ⟨[], [], [⟨7, 70, []⟩],
        [⟨0, 7, 0, 30, "credit_1", "completed", 1⟩], [], 2, 1⟩ 7 (some "hello")).2 = true ∧
      isTxHashShape "hello" = false ∧
      "hello".isEmpty = false := by
  decide

/-- C8 amended: `settleCredit` validates only that the supplied
reference is a present non-empty string: with the buyer's credit record
present and unsettled purchases pending, a missing / non-string / empty
reference fails with `InvalidReference` and the state is unchanged,
while every non-empty string — of transaction-hash shape or not — passes
the validation (the result is never `InvalidReference`). -/
theorem C8_reference_validation (db : DB) (u : UserId) (ref : Option String)
    (c0 : SimpleCredit)
    (hcr : db.credits.find? (fun c => c.user == u) = some c0)
    (hpend : pendingPurchasesOf db u ≠ []) :
    (refValid ref = false → settleCredit db u ref = (db, .error .InvalidReference)) ∧
    (refValid ref = true → (settleCredit db u ref).2 ≠ .error .InvalidReference) := by
  have hpe : (pendingPurchasesOf db u).isEmpty = false := by
    cases hh : (pendingPurchasesOf db u).isEmpty
    · rfl
    · exact absurd (List.isEmpty_iff.mp hh) hpend
  constructor
  · intro hinv
    unfold settleCredit
    rw [hcr]
    simp [hpe, hinv]
  · intro hval
    unfold settleCredit
    rw [hcr]
    by_cases hused : ref.getD "" ∈ c0.settledTransactions
    · simp [hpe, hval, hused]
    · simp [hpe, hval, hused]

/-- Witness for the amended C8: the empty-string reference (falsy in the
controller's check) is rejected with `InvalidReference`. -/
theorem C8_witness :
    (refValid (some "") = false →
      settleCredit ⟨[], [], [⟨7, 70, []⟩],
        [⟨0, 7, 0, 30, "credit_1", "completed", 1⟩], [], 2, 1⟩ 7 (some "") =
      (⟨[], [], [⟨7, 70, []⟩],
        [⟨0, 7, 0, 30, "credit_1", "completed", 1⟩], [], 2, 1⟩,
        .error .InvalidReference)) ∧
    (refValid (some "") = true →
      (settleCredit ⟨[], [], [⟨7, 70, []⟩],
        [⟨0, 7, 0, 30, "credit_1", "completed", 1⟩], [], 2, 1⟩ 7 (some "")).2 ≠
        .error .InvalidReference) :=
  C8_reference_validation _ 7 (some "") ⟨7, 70, []⟩ (by decide) (by decide)

/-- C4: a successful `claimCreatorEarnings(creator, A)` consumes pending
earnings oldest-first (`createdAt` ascending — the pending list, taken
in stored order, is `createdAt`-sorted), marking each consumed earning
entirely claimed and stopping once the running total covers `A`: the
remaining pending list is the original one with its minimal prefix whose
amounts sum to at least `A` dropped, that whole prefix moves to the
claimed sum, every shorter prefix sums below `A`, and consequently the
sum of pending earnings decreases by the prefix sum — at least `A`, and
exactly `A` precisely when `A` aligns with an earning boundary. -/
theorem C4_claim_consumes_oldest_first (db : DB) (u : UserId) (a : Int)
    (tr : Option String) (hE : EarnNonneg db)
    (hs : createdSorted db.earnings = true)
    (h : resOk (claimCreatorEarnings db u a tr).2 = true) :
    createdSorted (pendingEarningsOf db u) = true ∧
      pendingEarningsOf (claimCreatorEarnings db u a tr).1 u =
        (pendingEarningsOf db u).drop (ccount a (pendingEarningsOf db u)) ∧
      a ≤ amtSum ((pendingEarningsOf db u).take (ccount a (pendingEarningsOf db u))) ∧
      (∀ k < ccount a (pendingEarningsOf db u),
        amtSum ((pendingEarningsOf db u).take k) < a) ∧
      claimedSum (claimCreatorEarnings db u a tr).1 u =
        claimedSum db u +
          amtSum ((pendingEarningsOf db u).take (ccount a (pendingEarningsOf db u))) ∧
      pendingSum db u - pendingSum (claimCreatorEarnings db u a tr).1 u =
        amtSum ((pendingEarningsOf db u).take (ccount a (pendingEarningsOf db u))) ∧
      (pendingSum db u - pendingSum (claimCreatorEarnings db u a tr).1 u = a ↔
        ∃ k, amtSum ((pendingEarningsOf db u).take k) = a) := by
  obtain ⟨h0a, hne, hle, txh, htr, hres⟩ := claimCreatorEarnings_ok_inv db u a tr h
  set P := pendingEarningsOf db u with hP
  have h0 : createdSorted P = true := createdSorted_pendList u db.earnings hs
  have h1 : pendingEarningsOf (claimCreatorEarnings db u a tr).1 u =
      P.drop (ccount a P) := by
    rw [hres]
    exact claimApply_pendList_self db u a txh
  have h2 : a ≤ amtSum (P.take (ccount a P)) := consumed_ge a P h0a hle
  have h3 : ∀ k < ccount a P, amtSum (P.take k) < a := take_sum_lt a h0a P
  have h5 : claimedSum (claimCreatorEarnings db u a tr).1 u =
      claimedSum db u + amtSum (P.take (ccount a P)) := by
    rw [hres]
    exact claimApply_claimedSum_self db u a txh
  have hsum : amtSum P = amtSum (P.take (ccount a P)) + amtSum (P.drop (ccount a P)) := by
    conv_lhs => rw [← List.take_append_drop (ccount a P) P]
    rw [amtSum_append]
  have h6 : pendingSum db u - pendingSum (claimCreatorEarnings db u a tr).1 u =
      amtSum (P.take (ccount a P)) := by
    have hafter : pendingSum (claimCreatorEarnings db u a tr).1 u =
        amtSum (P.drop (ccount a P)) := congrArg amtSum h1
    have hbefore : pendingSum db u = amtSum P := rfl
    rw [hafter, hbefore]
    linarith
  refine ⟨h0, h1, h2, h3, h5, h6, ?_⟩
  rw [h6]
  constructor
  · intro heq
    exact ⟨ccount a P, heq⟩
  · rintro ⟨k, hk⟩
    have hPnn : ∀ e ∈ P, 0 ≤ e.amount := fun e he =>
      hE e (List.mem_of_mem_filter he)
    by_cases hkj : k < ccount a P
    · exact absurd hk (ne_of_lt (h3 k hkj))
    · have hmono := take_sum_mono P hPnn (ccount a P) k (not_lt.mp hkj)
      rw [hk] at hmono
      linarith

/-- Witness for C4: creator 1 with pending earnings 30 (older) and 20
(newer) successfully claims 40; both earnings are consumed (the pending
sum drops by 50, strictly more than 40, and 40 aligns with no earning
boundary). -/
theorem C4_witness :
    EarnNonneg dbC4 ∧ createdSorted dbC4.earnings = true ∧
      resOk (claimCreatorEarnings dbC4 1 40 (some "0xT")).2 = true ∧
      (createdSorted (pendingEarningsOf dbC4 1) = true ∧
        pendingEarningsOf (claimCreatorEarnings dbC4 1 40 (some "0xT")).1 1 =
          (pendingEarningsOf dbC4 1).drop (ccount 40 (pendingEarningsOf dbC4 1)) ∧
        (40 : Int) ≤ amtSum ((pendingEarningsOf dbC4 1).take
          (ccount 40 (pendingEarningsOf dbC4 1))) ∧
        (∀ k < ccount 40 (pendingEarningsOf dbC4 1),
          amtSum ((pendingEarningsOf dbC4 1).take k) < 40) ∧
        claimedSum (claimCreatorEarnings dbC4 1 40 (some "0xT")).1 1 =
          claimedSum dbC4 1 + amtSum ((pendingEarningsOf dbC4 1).take
            (ccount 40 (pendingEarningsOf dbC4 1))) ∧
        pendingSum dbC4 1 - pendingSum (claimCreatorEarnings dbC4 1 40 (some "0xT")).1 1 =
          amtSum ((pendingEarningsOf dbC4 1).take
            (ccount 40 (pendingEarningsOf dbC4 1))) ∧
        (pendingSum dbC4 1 - pendingSum (claimCreatorEarnings dbC4 1 40 (some "0xT")).1 1 =
            40 ↔ ∃ k, amtSum ((pendingEarningsOf dbC4 1).take k) = 40)) :=
  ⟨by decide, by decide, by decide,
    C4_claim_consumes_oldest_first dbC4 1 40 (some "0xT")
      (by decide) (by decide) (by decide)⟩

/-- End-to-end sanity check, mirroring the spec's walkthrough scenario:
a buyer on a fresh credit record buys content priced 30 (balance 70; the
Purchase pre-save hook already credits the creator's `totalEarnings`
with 30), settles with reference `0xabc` (balance back to 100, earning
still pending), and the creator then claims 30 (earning claimed, and
`totalEarnings` is credited a second time, reaching 60 — the aggregate
double-counts by design of the hook plus the claim update). -/
theorem scenario_buy_settle_claim :
    let db0 : DB := ⟨[⟨0, 1, 30, 0⟩], [⟨1, some "0xW", 0, 0⟩], [], [], [], 5, 0⟩
    let r1 := createPurchase db0 7 0
    let r2 := settleCredit r1.1 7 (some "0xabc")
    let r3 := claimCreatorEarnings r2.1 1 30 (some "0xT")
    resOk r1.2 = true ∧ balanceOf r1.1 7 = some 70 ∧
    totalEarningsOf r1.1 1 = 30 ∧
    resOk r2.2 = true ∧ balanceOf r2.1 7 = some 100 ∧
    pendingSum r2.1 1 = 30 ∧
    resOk r3.2 = true ∧ claimedSum r3.1 1 = 30 ∧ totalEarningsOf r3.1 1 = 60 ∧
    pendingSum r3.1 1 = 0 := by
  decide

/-- Sanity check for the spec's failure scenario: a buyer with balance
20 attempting to buy content priced 50 fails with `InsufficientCredit`
and the state is unchanged. -/
theorem scenario_insufficient_credit :
    let db0 : DB := ⟨[⟨0, 1, 50, 0⟩], [], [⟨7, 20, []⟩], [], [], 5, 0⟩
    (createPurchase db0 7 0).2 = .error .InsufficientCredit ∧
    (createPurchase db0 7 0).1 = db0 := by
  decide
